import Mathlib

/-!
Verification of bprd: the FIFO packet queue and the backpressure route
selection.

A shallow embedding of `src/fifo_queue.c` and of `backlogger_update` from
`src/backlogger.c`, followed by the properties proved about them.

Conventions of the embedding

* A `uint32_t` is a natural number below `2^32`; every arithmetic operation
  on one is written with an explicit `% 4294967296`.
* A pointer that the C code tests against `NULL` is an `Option`; `none` is
  the null pointer.
* Calls into the kernel or the operating system (`nfq_set_verdict`,
  `router_route_update`, the neighbor-table mutex, `exit`) are recorded, in
  program order, in a list returned next to the new state. Output written
  with `printf` is not recorded.
-/

set_option autoImplicit false

namespace Bprd

/-! ## fifo_queue.c -/

/-- Verdict constants of `linux/netfilter.h` used by the queue. -/
inductive nf_verdict where
  | NF_DROP
  | NF_ACCEPT
deriving DecidableEq, Repr

/-- One call `nfq_set_verdict(qh, id, verdict, 0, NULL)`. -/
structure verdict_t where
  qh : Nat
  id : Nat
  verdict : nf_verdict
deriving DecidableEq, Repr

/-- The struct `bprd_simple_fifo`: `head` and `tail` are `uint32_t` (the two
bounds are the type of the fields), `qh` is the netfilter queue handle
(`0` for `NULL`). -/
structure fifo_t where
  head : Nat
  tail : Nat
  qh : Nat
  head_lt : head < 4294967296
  tail_lt : tail < 4294967296
deriving DecidableEq, Repr

/-- `fifo_init`: a non-null queue gets `head = tail = 0` and `qh = NULL`. -/
def fifo_init (queue : Option fifo_t) : Option fifo_t :=
  match queue with
  | some _ => some { head := 0, tail := 0, qh := 0, head_lt := by decide, tail_lt := by decide }
  | none => none

/-- `fifo_add_packet`: the capture callback; `data` is the queue pointer.
Returns the new memory and the callback's return value. -/
def fifo_add_packet (data : Option fifo_t) : Option fifo_t × Int :=
  match data with
  | some queue =>
    (some { queue with tail := (queue.tail + 1) % 4294967296,
                       tail_lt := Nat.mod_lt _ (by decide) }, 0)
  | none => (none, 0)

/-- `fifo_send_packet`: `head += 1` and then a verdict `NF_ACCEPT` for the new
`head`, when the queue is non-null and `head < tail`. -/
def fifo_send_packet (queue : Option fifo_t) : Option fifo_t × List verdict_t :=
  match queue with
  | some q =>
    if q.head < q.tail then
      let q1 : fifo_t := { q with head := (q.head + 1) % 4294967296,
                                  head_lt := Nat.mod_lt _ (by decide) }
      (some q1, [{ qh := q1.qh, id := q1.head, verdict := nf_verdict.NF_ACCEPT }])
    else (some q, [])
  | none => (none, [])

/-- `fifo_drop_packet`: as `fifo_send_packet`, with verdict `NF_DROP`. -/
def fifo_drop_packet (queue : Option fifo_t) : Option fifo_t × List verdict_t :=
  match queue with
  | some q =>
    if q.head < q.tail then
      let q1 : fifo_t := { q with head := (q.head + 1) % 4294967296,
                                  head_lt := Nat.mod_lt _ (by decide) }
      (some q1, [{ qh := q1.qh, id := q1.head, verdict := nf_verdict.NF_DROP }])
    else (some q, [])
  | none => (none, [])

/-- `fifo_length`: `tail - head` in `uint32_t` arithmetic when `head < tail`,
else `0`. The C function dereferences `queue` without a null test, so the
embedding takes the pointed-to struct. -/
def fifo_length (queue : fifo_t) : Nat :=
  if queue.head < queue.tail then (queue.tail - queue.head) % 4294967296 else 0

/-- The `while` loop of `fifo_delete` on a non-null queue. -/
def fifo_delete_loop (q : fifo_t) : fifo_t × List verdict_t :=
  if h : q.head < q.tail then
    let q1 : fifo_t := { q with head := (q.head + 1) % 4294967296,
                                head_lt := Nat.mod_lt _ (by decide) }
    let r := fifo_delete_loop q1
    (r.1, { qh := q1.qh, id := q1.head, verdict := nf_verdict.NF_DROP } :: r.2)
  else (q, [])
termination_by q.tail - q.head
decreasing_by
  have := q.tail_lt
  omega

/-- `fifo_delete`: drops every held packet. -/
def fifo_delete (queue : Option fifo_t) : Option fifo_t × List verdict_t :=
  match queue with
  | some q => let r := fifo_delete_loop q; (some r.1, r.2)
  | none => (none, [])

/-- One call on a queue. -/
inductive fifo_op where
  | add
  | send
  | drop
  | delete
deriving DecidableEq, Repr

/-- Memory (the queue pointer's target) and the verdicts issued so far. -/
abbrev fifo_run_t := Option fifo_t × List verdict_t

/-- Performs one call, appending the verdicts it issues. -/
def fifo_step (s : fifo_run_t) (o : fifo_op) : fifo_run_t :=
  match o with
  | fifo_op.add => ((fifo_add_packet s.1).1, s.2)
  | fifo_op.send => ((fifo_send_packet s.1).1, s.2 ++ (fifo_send_packet s.1).2)
  | fifo_op.drop => ((fifo_drop_packet s.1).1, s.2 ++ (fifo_drop_packet s.1).2)
  | fifo_op.delete => ((fifo_delete s.1).1, s.2 ++ (fifo_delete s.1).2)

/-- Performs the calls `ops`, in order, on a queue just set up by `fifo_init`
(`q0` is the memory `fifo_init` was handed). -/
def fifo_run (q0 : fifo_t) (ops : List fifo_op) : fifo_run_t :=
  ops.foldl fifo_step (fifo_init (some q0), [])

/-- Number of capture callbacks in a sequence of calls. -/
def count_add (ops : List fifo_op) : Nat :=
  ops.count fifo_op.add

/-- Number of release operations (send or drop) in a sequence of calls. -/
def count_release (ops : List fifo_op) : Nat :=
  ops.count fifo_op.send + ops.count fifo_op.drop

/-! ## backlogger.c

The headers `dubp.h`, `commodity.h`, `neighbor.h`, `ntable.h`, `router.h`,
`logger.h` and the `netaddr` library are not among the sources; the types
below carry the fields that `backlogger_update` reads and writes. -/

/-- Modelled from the spec: `struct netaddr` of the address library, which is
missing from the sources; an address is an abstract value, here a number. -/
abbrev netaddr := Nat

/-- Dotted-quad IPv4 address as a number. -/
def ipv4 (a b c d : Nat) : netaddr := ((a * 256 + b) * 256 + c) * 256 + d

/-- Modelled from the spec: `netaddr_cmp` of the address library, which is
missing from the sources: `0` exactly when the two addresses are equal
("destination equals the local address", tested in the code as
`netaddr_cmp(..) == 0`), else the sign of their order. -/
def netaddr_cmp (a1 a2 : netaddr) : Int :=
  if a1 = a2 then 0 else if a1 < a2 then -1 else 1

/-- The member `cdata` of a commodity: destination address and backlog
(`uint32_t`, it receives `fifo_length`). -/
structure commodity_s_t where
  addr : netaddr
  backlog : Nat
deriving DecidableEq, Repr

/-- The fields of `commodity_t` used here. -/
structure commodity_t where
  cdata : commodity_s_t
  nfq_id : Nat
  queue : Option fifo_t
deriving DecidableEq, Repr

/-- The fields of `neighbor_t` used here; `clist` is the neighbor's mirrored
commodity list. -/
structure neighbor_t where
  addr : netaddr
  bidir : Bool
  clist : List commodity_t
deriving DecidableEq, Repr

/-- The fields of the global `dubpd` used here; `nlist` is
`dubpd.ntable.nlist`, `saddr` the local address. -/
structure dubp_t where
  clist : List commodity_t
  nlist : List neighbor_t
  saddr : netaddr
  ipver : Nat
  if_index : Nat
deriving DecidableEq, Repr

/-- Modelled from the spec: `clist_find` of commodity.c, which is missing
from the sources: the entry of `clist` for the commodity `c` (the first one
whose destination address compares equal to that of `c`), `none` for `NULL`. -/
def clist_find (clist : List commodity_t) (c : commodity_t) : Option commodity_t :=
  clist.find? (fun e => netaddr_cmp e.cdata.addr c.cdata.addr == 0)

/-- Syslog priority `LOG_ERR`. -/
def LOG_ERR : Nat := 3

/-- Syslog priority `LOG_DEBUG`. -/
def LOG_DEBUG : Nat := 7

/-- What `backlogger_update` does to the outside world, in program order.
`ntable_read` is the entry into the neighbor loop of line 123, which reads
`dubpd.ntable.nlist` and, through it, every neighbor that the loop visits
before the next call. `invalid_read` is the read of line 166 through a
pointer `nopt` that points to no readable memory; it ends the process. -/
inductive event_t where
  | ntable_mutex_lock
  | ntable_mutex_unlock
  | ntable_read
  | logger_log (priority : Nat)
  | exit (status : Nat)
  | assert_fail
  | invalid_read
  | router_route_update (dst : netaddr) (nh : netaddr) (ipver : Nat) (if_index : Nat)
deriving DecidableEq, Repr

/-- Modelled from the spec: the macro `DUBP_LOG_ERR` of logger.h, which is
missing from the sources. logger.c documents it as "Logs an error message and
exits": it calls `logger_log` with priority `LOG_ERR`, and `logger_log` ends
with `exit(1)` for that priority. -/
def DUBP_LOG_ERR : List event_t := [event_t.logger_log LOG_ERR, event_t.exit 1]

/-- Modelled from the spec: the macro `DUBP_LOG_DBG` of logger.h, which is
missing from the sources: `logger_log` with priority `LOG_DEBUG`, which
returns. -/
def DUBP_LOG_DBG : List event_t := [event_t.logger_log LOG_DEBUG]

/-- The constant `RAND_MAX` of the C library (glibc). -/
def RAND_MAX : Nat := 2147483647

/-- The test `((double)rand())/((double)RAND_MAX) >= ((double)(num-1))/((double)num)`
for a draw `r`. Both quotients are taken exactly: `r`, `RAND_MAX` and `num`
are integers that a double holds exactly, IEEE division rounds monotonically,
and for `0 < num < 2^22` two different quotients of this form lie more than
one unit in the last place apart, so the rounded comparison agrees with the
exact one. -/
def nexthop_test (r : Nat) (num : Int) : Bool :=
  decide ((r : ℚ) / (RAND_MAX : ℚ) ≥ ((num - 1 : Int) : ℚ) / ((num : Int) : ℚ))

/-- How one pass through a loop body ends. -/
inductive ctl_t where
  | next
  | brk
  | exited
deriving DecidableEq, Repr

/-- Local variables of `backlogger_update` that the neighbor loop uses:
`num`, `diffopt`, the pointer `nopt` and the number of calls of `rand()` made
so far. `nopt` is `some n` when reading through it yields the neighbor `n`,
and `none` when it points to no readable memory. -/
structure scan_t where
  num : Int
  diffopt : Nat
  nopt : Option neighbor_t
  nrand : Nat
deriving DecidableEq, Repr

/-- The value that line 142 stores in `difftemp`: the difference
`c->cdata.backlog - ctemp->cdata.backlog` in `uint32_t` arithmetic. -/
def difftemp_of (c ctemp : commodity_t) : Nat :=
  (c.cdata.backlog + (4294967296 - ctemp.cdata.backlog % 4294967296)) % 4294967296

/-- Lines 142-159: the differential comparison for the neighbor `n` whose
mirrored entry is `ctemp`, and the tie-break test. `rand i` is the value
returned by the `i`-th call of `rand()`. Returns `ctl_t.next` in every case
(on the `continue` of line 145 and at the end of the loop body alike). -/
def backlog_compare (rand : Nat → Nat) (c ctemp : commodity_t) (n : neighbor_t)
    (s : scan_t) : ctl_t × scan_t :=
  let difftemp : Nat := difftemp_of c ctemp
  if difftemp < s.diffopt then
    (ctl_t.next, s)
  else
    let num : Int := if difftemp = s.diffopt then s.num + 1 else 1
    if nexthop_test (rand s.nrand) num then
      (ctl_t.next, { s with num := num, nopt := some n, nrand := s.nrand + 1 })
    else
      (ctl_t.next, { s with num := num, nrand := s.nrand + 1 })

/-- Lines 124-159: the body of the neighbor loop for the commodity `c`. -/
def neighbor_body (rand : Nat → Nat) (c : commodity_t) (n : neighbor_t)
    (s : scan_t) : ctl_t × scan_t :=
  match clist_find n.clist c with
  | none => (ctl_t.exited, s)
  | some ctemp =>
    if !n.bidir then
      (ctl_t.next, s)
    else if netaddr_cmp n.addr ctemp.cdata.addr ≠ 0 then
      (ctl_t.brk, { s with nopt := some n })
    else
      backlog_compare rand c ctemp n s

/-- Lines 123-160: the loop over the neighbor table. The result is
`ctl_t.exited` when `DUBP_LOG_ERR` ended the process, else `ctl_t.next`
(the loop ran out of neighbors or left through `break`). -/
def scan_neighbors (rand : Nat → Nat) (c : commodity_t) :
    List neighbor_t → scan_t → ctl_t × scan_t
  | [], s => (ctl_t.next, s)
  | n :: ns, s =>
    match neighbor_body rand c n s with
    | (ctl_t.next, s1) => scan_neighbors rand c ns s1
    | (ctl_t.brk, s1) => (ctl_t.next, s1)
    | (ctl_t.exited, s1) => (ctl_t.exited, s1)

/-- Lines 119-160 for the commodity `c`: `num = 0`, `diffopt = 0` and the
neighbor loop over `dubpd.ntable.nlist`. -/
def commodity_scan (d : dubp_t) (rand : Nat → Nat) (c : commodity_t)
    (nopt : Option neighbor_t) (nrand : Nat) : ctl_t × scan_t :=
  scan_neighbors rand c d.nlist { num := 0, diffopt := 0, nopt := nopt, nrand := nrand }

/-- How a call of `backlogger_update` ends: it returns, the process exits
with a status, the assertion of line 97 aborts it, or the read of line 166
through an unreadable `nopt` crashes it. -/
inductive status_t where
  | returned
  | exited (status : Nat)
  | aborted
  | crashed
deriving DecidableEq, Repr

/-- What survives from one commodity to the next: `nopt` (declared at
function scope, without initialiser, and never reset), the number of
`rand()` calls, and how the process has ended, if it has; `events` are the
calls made. -/
structure tick_t where
  ended : Option status_t
  nopt : Option neighbor_t
  nrand : Nat
  events : List event_t
deriving DecidableEq, Repr

/-- Lines 109-167: the body of the commodity loop for `c`, entered with
`nopt` and `nrand`. After the neighbor loop, lines 164-167 read the
next-hop address through `nopt` whether or not the loop assigned it. -/
def commodity_body (d : dubp_t) (rand : Nat → Nat) (c : commodity_t)
    (nopt : Option neighbor_t) (nrand : Nat) : tick_t :=
  if netaddr_cmp d.saddr c.cdata.addr = 0 then
    { ended := none, nopt := nopt, nrand := nrand, events := DUBP_LOG_DBG }
  else
    match commodity_scan d rand c nopt nrand with
    | (ctl_t.exited, s) =>
      { ended := some (status_t.exited 1), nopt := s.nopt, nrand := s.nrand,
        events := event_t.ntable_read :: DUBP_LOG_ERR }
    | (_, s) =>
      match s.nopt with
      | none =>
        { ended := some status_t.crashed, nopt := s.nopt, nrand := s.nrand,
          events := [event_t.ntable_read, event_t.invalid_read] }
      | some n =>
        { ended := none, nopt := s.nopt, nrand := s.nrand,
          events := [event_t.ntable_read,
            event_t.router_route_update c.cdata.addr n.addr d.ipver d.if_index] }

/-- Lines 108-168: the loop over the commodities. -/
def commodity_loop (d : dubp_t) (rand : Nat → Nat) :
    List commodity_t → Option neighbor_t → Nat → tick_t
  | [], nopt, nrand => { ended := none, nopt := nopt, nrand := nrand, events := [] }
  | c :: cs, nopt, nrand =>
    let t := commodity_body d rand c nopt nrand
    if t.ended.isSome then t
    else
      let t1 := commodity_loop d rand cs t.nopt t.nrand
      { t1 with events := t.events ++ t1.events }

/-- Lines 95-99: every commodity's backlog is refreshed from its queue, up to
the first commodity without a queue, where `assert(c->queue)` fails. Returns
whether every assertion held, and the list as it then is in memory. -/
def update_backlogs : List commodity_t → Bool × List commodity_t
  | [] => (true, [])
  | c :: cs =>
    match c.queue with
    | none => (false, c :: cs)
    | some q =>
      ((update_backlogs cs).1,
        { c with cdata := { c.cdata with backlog := fifo_length q } } :: (update_backlogs cs).2)

/-- Result of one tick: the commodity list in memory, the calls made, and how
the tick ended. -/
structure result_t where
  clist : List commodity_t
  events : List event_t
  status : status_t
deriving DecidableEq, Repr

/-- `backlogger_update`: one tick. `rand i` is the value returned by the
`i`-th call of `rand()` in the tick. `nopt0` is the indeterminate value that
the uninitialised pointer `nopt` of line 89 holds on entry: `some g` when
reading through it yields `g` (a stale or arbitrary neighbor struct), `none`
when it points to no readable memory. -/
def backlogger_update (d : dubp_t) (rand : Nat → Nat) (nopt0 : Option neighbor_t) :
    result_t :=
  match update_backlogs d.clist with
  | (false, cl) => { clist := cl, events := [event_t.assert_fail], status := status_t.aborted }
  | (true, cl) =>
    let t := commodity_loop d rand cl nopt0 0
    match t.ended with
    | some st => { clist := cl, events := event_t.ntable_mutex_lock :: t.events, status := st }
    | none =>
      { clist := cl,
        events := event_t.ntable_mutex_lock :: (t.events ++ [event_t.ntable_mutex_unlock]),
        status := status_t.returned }

/-- Some memory contents of a queue before `fifo_init` has run. -/
def fifo_raw : fifo_t :=
  { head := 7, tail := 3, qh := 1, head_lt := by decide, tail_lt := by decide }

/-- A queue holding the packets `3`, `4` and `5`. -/
def fifo_raw_held : fifo_t :=
  { head := 2, tail := 5, qh := 1, head_lt := by decide, tail_lt := by decide }

/-- The pointer `nopt` still holds its entry value `nopt0` or points to a
bidirectional neighbor of the table. -/
def nopt_ok (nlist : List neighbor_t) (nopt0 nopt : Option neighbor_t) : Prop :=
  nopt = nopt0 ∨ ∃ n, nopt = some n ∧ n ∈ nlist ∧ n.bidir = true

/-- A queue holding ten packets. -/
def fifo_ten : fifo_t :=
  { head := 0, tail := 10, qh := 1, head_lt := by decide, tail_lt := by decide }

/-- The commodity of the scenarios: destination 10.0.0.5, queue id 1, ten
packets held (local backlog 10). -/
def commodity_5 : commodity_t :=
  { cdata := { addr := ipv4 10 0 0 5, backlog := 0 }, nfq_id := 1, queue := some fifo_ten }

/-- A neighbor at `addr` whose mirrored list reports `backlog` for the
destination 10.0.0.5. -/
def neighbor_of (addr : netaddr) (bidir : Bool) (backlog : Nat) : neighbor_t :=
  { addr := addr, bidir := bidir,
    clist := [{ cdata := { addr := ipv4 10 0 0 5, backlog := backlog }, nfq_id := 1,
                queue := none }] }

/-- The daemon at 10.0.0.1 (IPv4, interface 2) with the single commodity
`commodity_5` and the neighbor table `nlist`. -/
def dubp_of (nlist : List neighbor_t) : dubp_t :=
  { clist := [commodity_5], nlist := nlist, saddr := ipv4 10 0 0 1, ipver := 4, if_index := 2 }

/-- The daemon at 10.0.0.5 itself, for which `commodity_5` is self-destined. -/
def dubp_self (nlist : List neighbor_t) : dubp_t :=
  { clist := [commodity_5], nlist := nlist, saddr := ipv4 10 0 0 5, ipver := 4, if_index := 2 }

/-- Whether a call is a `router_route_update`. -/
def is_route_update : event_t → Bool
  | event_t.router_route_update _ _ _ _ => true
  | _ => false

/-- The assignment `c->cdata.backlog = fifo_length(c->queue)` of line 98 for a
commodity that has a queue. -/
def refresh_backlog (c : commodity_t) : commodity_t :=
  match c.queue with
  | some q => { c with cdata := { c.cdata with backlog := fifo_length q } }
  | none => c

/-- The commodity for 10.0.0.6, queue id 2, with an empty queue. -/
def commodity_6 : commodity_t :=
  { cdata := { addr := ipv4 10 0 0 6, backlog := 0 }, nfq_id := 2,
    queue := some { head := 0, tail := 0, qh := 2, head_lt := by decide, tail_lt := by decide } }

/-- The neighbor 10.0.0.2, bidirectional, whose mirrored list holds only the
commodity for 10.0.0.6. -/
def neighbor_2_only6 : neighbor_t :=
  { addr := ipv4 10 0 0 2, bidir := true,
    clist := [{ cdata := { addr := ipv4 10 0 0 6, backlog := 1 }, nfq_id := 2,
                queue := none }] }

/-- The neighbor 10.0.0.3, bidirectional, mirroring the commodities for
10.0.0.5 and 10.0.0.6. -/
def neighbor_3_both : neighbor_t :=
  { addr := ipv4 10 0 0 3, bidir := true,
    clist := [{ cdata := { addr := ipv4 10 0 0 5, backlog := 8 }, nfq_id := 1,
                queue := none },
              { cdata := { addr := ipv4 10 0 0 6, backlog := 0 }, nfq_id := 2,
                queue := none }] }

/-- The neighbor 10.0.0.4, not bidirectional, mirroring both commodities. -/
def neighbor_4_unidir : neighbor_t :=
  { addr := ipv4 10 0 0 4, bidir := false,
    clist := [{ cdata := { addr := ipv4 10 0 0 5, backlog := 0 }, nfq_id := 1,
                queue := none },
              { cdata := { addr := ipv4 10 0 0 6, backlog := 0 }, nfq_id := 2,
                queue := none }] }

/-- The daemon at 10.0.0.1 with the commodities for 10.0.0.5 and 10.0.0.6.
Its first neighbor, 10.0.0.2, mirrors only the commodity for 10.0.0.6; the
second, 10.0.0.3, mirrors both. -/
def dubp_missing : dubp_t :=
  { clist := [commodity_5, commodity_6],
    nlist := [neighbor_2_only6, neighbor_3_both],
    saddr := ipv4 10 0 0 1, ipver := 4, if_index := 2 }

/-- The same daemon with the commodity for 10.0.0.6 registered first and the
non-bidirectional neighbor 10.0.0.4 first in the table. -/
def dubp_missing_later : dubp_t :=
  { clist := [commodity_6, commodity_5],
    nlist := [neighbor_4_unidir, neighbor_2_only6, neighbor_3_both],
    saddr := ipv4 10 0 0 1, ipver := 4, if_index := 2 }

/-- The arguments `(destination, address family, interface index)` of the
`router_route_update` calls of a list of calls, in order. -/
def route_update_args : List event_t → List (netaddr × Nat × Nat)
  | [] => []
  | event_t.router_route_update dst _ v i :: es => (dst, v, i) :: route_update_args es
  | _ :: es => route_update_args es

/-- The local variables on entry to the neighbor loop: `num = 0`,
`diffopt = 0`, `nopt` not yet assigned (here: unreadable). -/
def scan_entry : scan_t := { num := 0, diffopt := 0, nopt := none, nrand := 0 }

/-- The commodity for 10.0.0.5 with local backlog `b`. -/
def commodity_5_with (b : Nat) : commodity_t :=
  { cdata := { addr := ipv4 10 0 0 5, backlog := b }, nfq_id := 1, queue := some fifo_ten }

/-- The daemon at 10.0.0.1 with the commodities for 10.0.0.5 and 10.0.0.6 and
the neighbors 10.0.0.4 (not bidirectional) and 10.0.0.3, both mirroring
both commodities. -/
def dubp_two : dubp_t :=
  { clist := [commodity_5, commodity_6],
    nlist := [neighbor_4_unidir, neighbor_3_both],
    saddr := ipv4 10 0 0 1, ipver := 4, if_index := 2 }

/-! ## logger.c

A C string is the list of its bytes; `snprintf` and `vsnprintf` count
bytes. -/

/-- The bytes of a string literal of the source. -/
def c_bytes (s : String) : List UInt8 := s.toUTF8.data.toList

/-- The macro `LOG_PRI` of `syslog.h`, `(p) & LOG_PRIMASK` with mask `0x07`:
the low three bits of the `int`, which for the two's complement
representation is its residue modulo 8. -/
def LOG_PRI (priority : Int) : Int := priority % 8

/-- Syslog priority `LOG_WARNING`. -/
def LOG_WARNING : Nat := 4

/-- The constant `LOGGER_MSGSTRLEN`. -/
def LOGGER_MSGSTRLEN : Nat := 256

/-- The table `logger_prioritynames`, indexed by priority level. -/
def logger_prioritynames (level : Int) : List UInt8 :=
  c_bytes (["EMERG", "ALERT", "CRTCL", "ERROR", "WRNNG", "NOTCE", "INFO", "DEBUG"].getD
    level.toNat "")

/-- The text of the first `snprintf` of `logger_log`: `"%s %s:%d "` with the
priority name, `file` and `line` when `file` is not null, `"%s "` with the
priority name otherwise. -/
def log_header (priority : Int) (file : Option (List UInt8)) (line : Int) : List UInt8 :=
  match file with
  | some f =>
    logger_prioritynames (LOG_PRI priority) ++ c_bytes " " ++ f ++ c_bytes ":" ++
      c_bytes (toString line) ++ c_bytes " "
  | none => logger_prioritynames (LOG_PRI priority) ++ c_bytes " "

/-- The text of the truncation warning,
`"%s %s:%d Previous log message truncated due to length\n"`, whose last
character belongs to the format handed to syslog; a null `file` is printed
as `(null)` (glibc). -/
def log_warning (file : Option (List UInt8)) (line : Int) : List UInt8 :=
  logger_prioritynames LOG_WARNING ++ c_bytes " " ++ file.getD (c_bytes "(null)") ++
    c_bytes ":" ++ c_bytes (toString line) ++
    c_bytes " Previous log message truncated due to length\n"

/-- What `logger_log` does to the outside world: the text of a `syslog` call
is what its format and arguments expand to. -/
inductive log_event_t where
  | mutex_lock
  | mutex_unlock
  | syslog (priority : Int) (text : List UInt8)
  | exit (status : Nat)
deriving DecidableEq, Repr

/-- Result of a call of `logger_log`: the calls made and whether it returned
to its caller (`exited = none`) or ended the process with a status. -/
structure log_result_t where
  events : List log_event_t
  exited : Option Nat
deriving DecidableEq, Repr

/-- `logger_log`. `file` is `none` for a null pointer; `body` is the text
that `fmt` and its arguments expand to. `n` and `m` are the numbers of bytes
that `snprintf` and `vsnprintf` return, `msgstr` the contents of the buffer
`logger_msgstr` (256 bytes, the last one for the terminator) at the `syslog`
call, which appends a newline. -/
def logger_log (priority : Int) (file : Option (List UInt8)) (line : Int)
    (body : List UInt8) : log_result_t :=
  let header : List UInt8 := log_header priority file line
  let n : Nat := header.length
  let m : Nat := if n < LOGGER_MSGSTRLEN then body.length else 0
  let msgstr : List UInt8 :=
    if n < LOGGER_MSGSTRLEN then header ++ body.take (LOGGER_MSGSTRLEN - n - 1)
    else header.take (LOGGER_MSGSTRLEN - 1)
  let logged : List log_event_t :=
    if n + m < LOGGER_MSGSTRLEN then
      [log_event_t.syslog priority (msgstr ++ c_bytes "\n")]
    else
      [log_event_t.syslog priority (msgstr ++ c_bytes "\n"),
       log_event_t.syslog LOG_WARNING (log_warning file line)]
  if LOG_PRI priority = LOG_ERR then
    { events := log_event_t.mutex_lock :: (logged ++ [log_event_t.exit 1]), exited := some 1 }
  else
    { events := log_event_t.mutex_lock :: (logged ++ [log_event_t.mutex_unlock]),
      exited := none }

/-! ## avl_comp.c -/

/-- `avl_comp_uint32`: `k1` and `k2` are the keys the two pointers point to,
`ptr` the unused custom pointer. -/
def avl_comp_uint32 (k1 k2 : Nat) (_ptr : Nat) : Int :=
  if k1 > k2 then 1
  else if k2 > k1 then -1
  else 0

/-- `avl_comp_uint16`. -/
def avl_comp_uint16 (k1 k2 : Nat) (_ptr : Nat) : Int :=
  if k1 > k2 then 1
  else if k2 > k1 then -1
  else 0

/-- `avl_comp_uint8`. -/
def avl_comp_uint8 (k1 k2 : Nat) (_ptr : Nat) : Int :=
  if k1 > k2 then 1
  else if k2 > k1 then -1
  else 0

/-! ## Properties of fifo_queue.c -/

theorem fifo_run_snoc (q0 : fifo_t) (ops : List fifo_op) (o : fifo_op) :
    fifo_run q0 (ops ++ [o]) = fifo_step (fifo_run q0 ops) o := by
  simp [fifo_run, List.foldl_append]

theorem count_add_snoc (ops : List fifo_op) (o : fifo_op) :
    count_add (ops ++ [o]) = count_add ops + (if o = fifo_op.add then 1 else 0) := by
  cases o <;> simp [count_add, List.count_append]

theorem count_release_snoc (ops : List fifo_op) (o : fifo_op) :
    count_release (ops ++ [o]) =
      count_release ops + (if o = fifo_op.send ∨ o = fifo_op.drop then 1 else 0) := by
  cases o <;> simp [count_release, List.count_append] <;> omega

/-- The loop of `fifo_delete` leaves `tail` and `qh` alone and never moves
`head` past `tail` or backwards. -/
theorem fifo_delete_loop_fields (q : fifo_t) :
    (fifo_delete_loop q).1.tail = q.tail ∧ (fifo_delete_loop q).1.qh = q.qh ∧
      (fifo_delete_loop q).1.head = max q.head q.tail := by
  induction q using fifo_delete_loop.induct with
  | case1 q h q1 ih =>
    rw [fifo_delete_loop]
    have ht := q.tail_lt
    simp only [h, dite_true]
    obtain ⟨i1, i2, i3⟩ := ih
    refine ⟨i1, i2, ?_⟩
    rw [i3]
    show max ((q.head + 1) % 4294967296) q.tail = max q.head q.tail
    omega
  | case2 q h =>
    rw [fifo_delete_loop]
    simp only [h, dite_false]
    refine ⟨trivial, trivial, ?_⟩
    omega

/-- What one call does to the fields of a non-null queue. -/
theorem fifo_step_fields (q : fifo_t) (vs : List verdict_t) (o : fifo_op) :
    ∃ q1, (fifo_step (some q, vs) o).1 = some q1 ∧ q1.qh = q.qh ∧
      (o = fifo_op.add → q1.head = q.head ∧ q1.tail = (q.tail + 1) % 4294967296) ∧
      (o = fifo_op.send ∨ o = fifo_op.drop →
        q1.tail = q.tail ∧ q1.head = if q.head < q.tail then q.head + 1 else q.head) ∧
      (o = fifo_op.delete → q1.tail = q.tail ∧ q1.head = max q.head q.tail) := by
  have ht := q.tail_lt
  cases o with
  | add => exact ⟨_, rfl, rfl, by simp, by simp, by simp⟩
  | send =>
    by_cases h : q.head < q.tail
    · refine ⟨{ q with head := (q.head + 1) % 4294967296,
                         head_lt := Nat.mod_lt _ (by decide) },
        by simp [fifo_step, fifo_send_packet, h], rfl, by simp, ?_, by simp⟩
      intro _
      refine ⟨rfl, ?_⟩
      show (q.head + 1) % 4294967296 = _
      rw [if_pos h]; omega
    · exact ⟨q, by simp [fifo_step, fifo_send_packet, h], rfl, by simp, by simp [h], by simp⟩
  | drop =>
    by_cases h : q.head < q.tail
    · refine ⟨{ q with head := (q.head + 1) % 4294967296,
                         head_lt := Nat.mod_lt _ (by decide) },
        by simp [fifo_step, fifo_drop_packet, h], rfl, by simp, ?_, by simp⟩
      intro _
      refine ⟨rfl, ?_⟩
      show (q.head + 1) % 4294967296 = _
      rw [if_pos h]; omega
    · exact ⟨q, by simp [fifo_step, fifo_drop_packet, h], rfl, by simp, by simp [h], by simp⟩
  | delete =>
    obtain ⟨h1, h2, h3⟩ := fifo_delete_loop_fields q
    exact ⟨(fifo_delete_loop q).1, by simp [fifo_step, fifo_delete], h2, by simp, by simp,
      fun _ => ⟨h1, h3⟩⟩

/-- While fewer than `2^32` packets have been captured, `tail` is the number
of captures and `head` has not passed it. -/
theorem fifo_run_inv (q0 : fifo_t) (ops : List fifo_op) (hk : count_add ops < 4294967296) :
    ∃ q, (fifo_run q0 ops).1 = some q ∧ q.tail = count_add ops ∧ q.head ≤ q.tail := by
  induction ops using List.reverseRecOn with
  | nil => exact ⟨_, rfl, rfl, Nat.le_refl _⟩
  | append_singleton ops o ih =>
    rw [count_add_snoc] at hk
    obtain ⟨q, hq, h1, h2⟩ := ih (by omega)
    rw [fifo_run_snoc, count_add_snoc]
    obtain ⟨q1, e1, -, ha, hr, hd⟩ := fifo_step_fields q (fifo_run q0 ops).2 o
    have e2 : fifo_run q0 ops = (some q, (fifo_run q0 ops).2) := by rw [← hq]
    rw [e2]
    refine ⟨q1, e1, ?_⟩
    cases o with
    | add =>
      obtain ⟨a1, a2⟩ := ha rfl
      simp only [if_true] at hk ⊢
      omega
    | send =>
      obtain ⟨a1, a2⟩ := hr (Or.inl rfl)
      simp only [if_false, reduceCtorEq] at hk ⊢
      split at a2 <;> omega
    | drop =>
      obtain ⟨a1, a2⟩ := hr (Or.inr rfl)
      simp only [if_false, reduceCtorEq] at hk ⊢
      split at a2 <;> omega
    | delete =>
      obtain ⟨a1, a2⟩ := hd rfl
      simp only [if_false, reduceCtorEq] at hk ⊢
      omega

/-- Repeating the capture callback `n` times adds `n` to `tail` modulo
`2^32` and touches nothing else. -/
theorem fifo_add_replicate (n : Nat) (q : fifo_t) (vs : List verdict_t) :
    ∃ q1, (List.replicate n fifo_op.add).foldl fifo_step (some q, vs) = (some q1, vs) ∧
      q1.head = q.head ∧ q1.tail = (q.tail + n) % 4294967296 ∧ q1.qh = q.qh := by
  induction n generalizing q with
  | zero =>
    have := q.tail_lt
    exact ⟨q, rfl, rfl, by simp; omega, rfl⟩
  | succ n ih =>
    rw [List.replicate_succ, List.foldl_cons]
    obtain ⟨q1, e1, a1, a2, a3⟩ := ih
      { q with tail := (q.tail + 1) % 4294967296, tail_lt := Nat.mod_lt _ (by decide) }
    refine ⟨q1, e1, a1, ?_, a3⟩
    rw [a2]
    show ((q.tail + 1) % 4294967296 + n) % 4294967296 = _
    omega

theorem take_snoc_shorter (ops : List fifo_op) (o : fifo_op) (n : Nat) :
    ops.take n = (ops ++ [o]).take (min n ops.length) := by
  rw [List.take_append_of_le_length (Nat.min_le_right _ _)]
  rcases Nat.le_total n ops.length with h | h
  · rw [Nat.min_eq_left h]
  · rw [Nat.min_eq_right h, List.take_of_length_le h, List.take_of_length_le (Nat.le_refl _)]

/-- When no release is attempted on an empty queue and fewer than `2^32`
packets have been captured, `head` counts the releases and `tail` the
captures. -/
theorem fifo_run_counts (q0 : fifo_t) (ops : List fifo_op)
    (hd : fifo_op.delete ∉ ops)
    (hp : ∀ n, count_release (ops.take n) ≤ count_add (ops.take n))
    (hk : count_add ops < 4294967296) :
    ∃ q, (fifo_run q0 ops).1 = some q ∧ q.head = count_release ops ∧
      q.tail = count_add ops := by
  induction ops using List.reverseRecOn with
  | nil => exact ⟨_, rfl, rfl, rfl⟩
  | append_singleton ops o ih =>
    have hfull := hp (ops ++ [o]).length
    rw [List.take_of_length_le (Nat.le_refl _), count_add_snoc, count_release_snoc] at hfull
    rw [count_add_snoc] at hk
    have hd1 : fifo_op.delete ∉ ops := fun h => hd (List.mem_append_left _ h)
    have hp1 : ∀ n, count_release (ops.take n) ≤ count_add (ops.take n) := by
      intro n
      rw [take_snoc_shorter ops o n]
      exact hp _
    obtain ⟨q, hq, h1, h2⟩ := ih hd1 hp1 (by omega)
    rw [fifo_run_snoc, count_add_snoc, count_release_snoc]
    obtain ⟨q1, e1, -, ha, hr, -⟩ := fifo_step_fields q (fifo_run q0 ops).2 o
    have e2 : fifo_run q0 ops = (some q, (fifo_run q0 ops).2) := by rw [← hq]
    rw [e2]
    refine ⟨q1, e1, ?_⟩
    cases o with
    | add =>
      obtain ⟨a1, a2⟩ := ha rfl
      simp only [if_true, if_false, reduceCtorEq, or_self] at hk hfull ⊢
      omega
    | send =>
      obtain ⟨a1, a2⟩ := hr (Or.inl rfl)
      simp only [if_true, if_false, reduceCtorEq, true_or] at hk hfull ⊢
      split at a2 <;> omega
    | drop =>
      obtain ⟨a1, a2⟩ := hr (Or.inr rfl)
      simp only [if_true, if_false, reduceCtorEq, or_true] at hk hfull ⊢
      split at a2 <;> omega
    | delete => exact absurd (List.mem_append_right _ (List.mem_singleton.mpr rfl)) hd

theorem count_add_replicate (n : Nat) : count_add (List.replicate n fifo_op.add) = n := by
  simp [count_add, List.count_replicate_self]

theorem count_release_replicate (n : Nat) :
    count_release (List.replicate n fifo_op.add) = 0 := by
  simp [count_release, List.count_replicate]

theorem fifo_run_replicate_add (q0 : fifo_t) (n : Nat) :
    ∃ q1, fifo_run q0 (List.replicate n fifo_op.add) = (some q1, []) ∧
      q1.head = 0 ∧ q1.tail = n % 4294967296 := by
  obtain ⟨q1, e1, a1, a2, -⟩ := fifo_add_replicate n
    { head := 0, tail := 0, qh := 0, head_lt := by decide, tail_lt := by decide } []
  exact ⟨q1, e1, a1, by rw [a2, Nat.zero_add]⟩

/-- C1, as stated, fails: one capture, one release and then `2^32 - 1` more
captures wrap the 32-bit `tail` round to `0` while `head` is `1`. -/
theorem C1_head_le_tail_counterexample :
    ∃ q, (fifo_run fifo_raw
        (fifo_op.add :: fifo_op.send :: List.replicate 4294967295 fifo_op.add)).1 = some q ∧
      q.head = 1 ∧ q.tail = 0 ∧ ¬ q.head ≤ q.tail := by
  obtain ⟨q1, e1, a1, a2, -⟩ := fifo_add_replicate 4294967295
    { head := 1, tail := 1, qh := 0, head_lt := by decide, tail_lt := by decide }
    [{ qh := 0, id := 1, verdict := nf_verdict.NF_ACCEPT }]
  refine ⟨q1, ?_, a1, a2, ?_⟩
  · have e0 : fifo_step (fifo_step (fifo_init (some fifo_raw), []) fifo_op.add) fifo_op.send =
        (some { head := 1, tail := 1, qh := 0, head_lt := by decide, tail_lt := by decide },
          [{ qh := 0, id := 1, verdict := nf_verdict.NF_ACCEPT }]) := by decide
    rw [fifo_run, List.foldl_cons, List.foldl_cons, e0, e1]
  · rw [a1, a2]; decide

/-- C1, amended: in every state reached from `fifo_init` by a sequence of
`fifo_add_packet`, `fifo_send_packet`, `fifo_drop_packet` and `fifo_delete`
calls that holds fewer than `2^32` captures (so that the 32-bit `tail` has
not wrapped), `head ≤ tail`. -/
theorem C1_head_le_tail_below_wrap (q0 : fifo_t) (ops : List fifo_op)
    (hk : count_add ops < 4294967296) :
    ∃ q, (fifo_run q0 ops).1 = some q ∧ q.head ≤ q.tail := by
  obtain ⟨q, hq, -, h⟩ := fifo_run_inv q0 ops hk
  exact ⟨q, hq, h⟩

theorem C1_head_le_tail_below_wrap_witness :
    count_add [fifo_op.add, fifo_op.add, fifo_op.send, fifo_op.delete, fifo_op.add,
        fifo_op.drop] < 4294967296 ∧
      ∃ q, (fifo_run fifo_raw [fifo_op.add, fifo_op.add, fifo_op.send, fifo_op.delete,
        fifo_op.add, fifo_op.drop]).1 = some q ∧ q.head ≤ q.tail :=
  ⟨by decide, C1_head_le_tail_below_wrap fifo_raw _ (by decide)⟩

/-- C2, as stated, fails twice over. A release called on the empty queue is
a no-op, so after `send, add` (one capture, one release) the length is `1`,
not `0`; and after `2^32` captures and no release the 32-bit length is `0`,
not `2^32`. -/
theorem C2_length_counterexample :
    (count_release [fifo_op.send, fifo_op.add] ≤ count_add [fifo_op.send, fifo_op.add] ∧
      (fifo_run fifo_raw [fifo_op.send, fifo_op.add]).1.map fifo_length = some 1 ∧
      count_add [fifo_op.send, fifo_op.add] - count_release [fifo_op.send, fifo_op.add] = 0) ∧
    (count_release (List.replicate 4294967296 fifo_op.add) ≤
        count_add (List.replicate 4294967296 fifo_op.add) ∧
      (fifo_run fifo_raw (List.replicate 4294967296 fifo_op.add)).1.map fifo_length = some 0 ∧
      count_add (List.replicate 4294967296 fifo_op.add) -
        count_release (List.replicate 4294967296 fifo_op.add) = 4294967296) := by
  refine ⟨⟨by decide, by decide, by decide⟩, ?_, ?_, ?_⟩
  · rw [count_add_replicate, count_release_replicate]; decide
  · obtain ⟨q1, e1, a1, a2⟩ := fifo_run_replicate_add fifo_raw 4294967296
    rw [e1, Option.map_some', fifo_length, a1, a2]
    decide
  · rw [count_add_replicate, count_release_replicate]

/-- C2, amended: a queue just set up by `fifo_init` has length `0`; and after
a sequence of `k` capture callbacks and `j` release operations
(`fifo_send_packet` or `fifo_drop_packet`) in which no release is called on
an empty queue (every prefix holds at least as many captures as releases)
and `k < 2^32`, `fifo_length` returns `k − j`. -/
theorem C2_length_accounting (q0 : fifo_t) (ops : List fifo_op)
    (hd : fifo_op.delete ∉ ops)
    (hp : ∀ n, count_release (ops.take n) ≤ count_add (ops.take n))
    (hk : count_add ops < 4294967296) :
    (fifo_init (some q0)).map fifo_length = some 0 ∧
      (fifo_run q0 ops).1.map fifo_length = some (count_add ops - count_release ops) := by
  refine ⟨rfl, ?_⟩
  obtain ⟨q, hq, h1, h2⟩ := fifo_run_counts q0 ops hd hp hk
  rw [hq, Option.map_some', fifo_length, h1, h2]
  congr 1
  split <;> omega

theorem C2_length_accounting_witness :
    (fifo_init (some fifo_raw)).map fifo_length = some 0 ∧
      (fifo_run fifo_raw [fifo_op.add, fifo_op.add, fifo_op.send, fifo_op.add,
        fifo_op.drop]).1.map fifo_length = some (3 - 2) :=
  C2_length_accounting fifo_raw
    [fifo_op.add, fifo_op.add, fifo_op.send, fifo_op.add, fifo_op.drop] (by decide)
    (fun n => by
      rcases Nat.lt_or_ge n 5 with h | h
      · interval_cases n <;> decide
      · rw [List.take_of_length_le (by simpa using h)]; decide)
    (by decide)

/-- C10: on a non-empty queue `fifo_send_packet` issues exactly one verdict,
`NF_ACCEPT`, for the id `head + 1` (the oldest held packet), adds one to
`head` and leaves `tail` and the queue handle unchanged. -/
theorem C10_send_nonempty (q : fifo_t) (h : q.head < q.tail) :
    ∃ q1, fifo_send_packet (some q) =
        (some q1, [{ qh := q.qh, id := q.head + 1, verdict := nf_verdict.NF_ACCEPT }]) ∧
      q1.head = q.head + 1 ∧ q1.tail = q.tail ∧ q1.qh = q.qh := by
  have ht := q.tail_lt
  have e : (q.head + 1) % 4294967296 = q.head + 1 := by omega
  refine ⟨{ q with head := (q.head + 1) % 4294967296, head_lt := Nat.mod_lt _ (by decide) },
    ?_, e, rfl, rfl⟩
  simp [fifo_send_packet, h, e]

theorem C10_send_nonempty_witness :
    ∃ q1, fifo_send_packet (some fifo_raw_held) =
        (some q1, [{ qh := 1, id := 3, verdict := nf_verdict.NF_ACCEPT }]) ∧
      q1.head = 3 ∧ q1.tail = 5 ∧ q1.qh = 1 :=
  C10_send_nonempty fifo_raw_held (by decide)

/-! ## Properties of backlogger_update -/

theorem backlog_compare_nopt (rand : Nat → Nat) (c ctemp : commodity_t) (n : neighbor_t)
    (s : scan_t) :
    (backlog_compare rand c ctemp n s).2.nopt = s.nopt ∨
      (backlog_compare rand c ctemp n s).2.nopt = some n := by
  unfold backlog_compare
  simp only []
  split_ifs <;> simp

theorem neighbor_body_nopt (rand : Nat → Nat) (c : commodity_t) (n : neighbor_t) (s : scan_t) :
    (neighbor_body rand c n s).2.nopt = s.nopt ∨
      ((neighbor_body rand c n s).2.nopt = some n ∧ n.bidir = true) := by
  unfold neighbor_body
  split
  · exact Or.inl rfl
  · rename_i ctemp _
    by_cases hb : n.bidir = true
    · simp only [hb, Bool.not_true, Bool.false_eq_true, if_false]
      split
      · exact Or.inr ⟨rfl, trivial⟩
      · rcases backlog_compare_nopt rand c ctemp n s with h | h
        · exact Or.inl h
        · exact Or.inr ⟨h, trivial⟩
    · simp only [Bool.not_eq_true] at hb
      simp only [hb, Bool.not_false, if_true]
      exact Or.inl trivial

theorem scan_neighbors_nopt_ok (rand : Nat → Nat) (c : commodity_t) (nlist : List neighbor_t)
    (nopt0 : Option neighbor_t) (ns : List neighbor_t) (hsub : ∀ n ∈ ns, n ∈ nlist)
    (s : scan_t) (hs : nopt_ok nlist nopt0 s.nopt) :
    nopt_ok nlist nopt0 (scan_neighbors rand c ns s).2.nopt := by
  induction ns generalizing s with
  | nil => exact hs
  | cons n ns ih =>
    have hn : nopt_ok nlist nopt0 (neighbor_body rand c n s).2.nopt := by
      rcases neighbor_body_nopt rand c n s with h | ⟨h, hb⟩
      · rw [h]; exact hs
      · exact Or.inr ⟨n, h, hsub n (List.mem_cons_self _ _), hb⟩
    unfold scan_neighbors
    generalize neighbor_body rand c n s = r at hn
    obtain ⟨k, s1⟩ := r
    cases k with
    | next => exact ih (fun m hm => hsub m (List.mem_cons_of_mem _ hm)) s1 hn
    | brk => exact hn
    | exited => exact hn

/-- The four ways through the body of the commodity loop: the commodity is
self-destined; the scan ends the process through `DUBP_LOG_ERR`; the scan
leaves an unreadable `nopt` and the read of line 166 crashes; or
`router_route_update` is called with the address read through `nopt`. -/
theorem commodity_body_cases (d : dubp_t) (rand : Nat → Nat) (c : commodity_t)
    (nopt : Option neighbor_t) (nrand : Nat) :
    (netaddr_cmp d.saddr c.cdata.addr = 0 ∧
      commodity_body d rand c nopt nrand =
        { ended := none, nopt := nopt, nrand := nrand, events := DUBP_LOG_DBG }) ∨
    (netaddr_cmp d.saddr c.cdata.addr ≠ 0 ∧
      (commodity_scan d rand c nopt nrand).1 = ctl_t.exited ∧
      commodity_body d rand c nopt nrand =
        { ended := some (status_t.exited 1),
          nopt := (commodity_scan d rand c nopt nrand).2.nopt,
          nrand := (commodity_scan d rand c nopt nrand).2.nrand,
          events := event_t.ntable_read :: DUBP_LOG_ERR }) ∨
    (netaddr_cmp d.saddr c.cdata.addr ≠ 0 ∧
      (commodity_scan d rand c nopt nrand).1 ≠ ctl_t.exited ∧
      (commodity_scan d rand c nopt nrand).2.nopt = none ∧
      commodity_body d rand c nopt nrand =
        { ended := some status_t.crashed, nopt := none,
          nrand := (commodity_scan d rand c nopt nrand).2.nrand,
          events := [event_t.ntable_read, event_t.invalid_read] }) ∨
    (netaddr_cmp d.saddr c.cdata.addr ≠ 0 ∧
      (commodity_scan d rand c nopt nrand).1 ≠ ctl_t.exited ∧
      ∃ n, (commodity_scan d rand c nopt nrand).2.nopt = some n ∧
        commodity_body d rand c nopt nrand =
          { ended := none, nopt := some n,
            nrand := (commodity_scan d rand c nopt nrand).2.nrand,
            events := [event_t.ntable_read,
              event_t.router_route_update c.cdata.addr n.addr d.ipver d.if_index] }) := by
  by_cases h : netaddr_cmp d.saddr c.cdata.addr = 0
  · exact Or.inl ⟨h, by simp [commodity_body, h]⟩
  · refine Or.inr ?_
    unfold commodity_body
    simp only [h, if_false]
    generalize commodity_scan d rand c nopt nrand = r
    obtain ⟨k, s⟩ := r
    have hne : netaddr_cmp d.saddr c.cdata.addr ≠ 0 := h
    cases k with
    | exited => exact Or.inl ⟨hne, rfl, rfl⟩
    | next =>
      cases hs : s.nopt with
      | none => exact Or.inr (Or.inl ⟨hne, by simp, rfl, by simp [hs]⟩)
      | some n => exact Or.inr (Or.inr ⟨hne, by simp, n, rfl, by simp [hs]⟩)
    | brk =>
      cases hs : s.nopt with
      | none => exact Or.inr (Or.inl ⟨hne, by simp, rfl, by simp [hs]⟩)
      | some n => exact Or.inr (Or.inr ⟨hne, by simp, n, rfl, by simp [hs]⟩)

/-- The commodity loop runs on, or has ended in `exit(1)` or in the crash of
line 166. -/
theorem commodity_loop_ended (d : dubp_t) (rand : Nat → Nat) (cs : List commodity_t)
    (nopt : Option neighbor_t) (nrand : Nat) :
    (commodity_loop d rand cs nopt nrand).ended = none ∨
      (commodity_loop d rand cs nopt nrand).ended = some (status_t.exited 1) ∨
      (commodity_loop d rand cs nopt nrand).ended = some status_t.crashed := by
  induction cs generalizing nopt nrand with
  | nil => exact Or.inl rfl
  | cons c cs ih =>
    rw [commodity_loop]
    rcases commodity_body_cases d rand c nopt nrand with
      ⟨-, e⟩ | ⟨-, -, e⟩ | ⟨-, -, -, e⟩ | ⟨-, -, n, -, e⟩
    · rw [e]; exact ih _ _
    · rw [e]; exact Or.inr (Or.inl rfl)
    · rw [e]; exact Or.inr (Or.inr rfl)
    · rw [e]; exact ih _ _

/-- Every call made by the commodity loop is a log call, the `exit` of
`DUBP_LOG_ERR`, the entry into a neighbor loop, the invalid read of line
166, or a `router_route_update` for a commodity of the list that is not
self-destined, with the configured address family and interface; its
next-hop is read through the entry value of `nopt` or is the address of a
bidirectional neighbor of the table. -/
theorem commodity_loop_events (d : dubp_t) (rand : Nat → Nat) (cs : List commodity_t)
    (nopt0 nopt : Option neighbor_t) (nrand : Nat) (hok : nopt_ok d.nlist nopt0 nopt) :
    ∀ ev ∈ (commodity_loop d rand cs nopt nrand).events,
      ev = event_t.logger_log LOG_DEBUG ∨ ev = event_t.logger_log LOG_ERR ∨
      ev = event_t.exit 1 ∨ ev = event_t.ntable_read ∨ ev = event_t.invalid_read ∨
      ∃ c ∈ cs, ∃ nh, ev = event_t.router_route_update c.cdata.addr nh d.ipver d.if_index ∧
        netaddr_cmp d.saddr c.cdata.addr ≠ 0 ∧
        ((∃ g, nopt0 = some g ∧ g.addr = nh) ∨
          ∃ n ∈ d.nlist, n.bidir = true ∧ n.addr = nh) := by
  induction cs generalizing nopt nrand with
  | nil => intro ev hev; simp [commodity_loop] at hev
  | cons c cs ih =>
    intro ev hev
    unfold commodity_loop at hev
    have lift : ∀ nopt1 nrand1, nopt_ok d.nlist nopt0 nopt1 →
        ev ∈ (commodity_loop d rand cs nopt1 nrand1).events →
        ev = event_t.logger_log LOG_DEBUG ∨ ev = event_t.logger_log LOG_ERR ∨
        ev = event_t.exit 1 ∨ ev = event_t.ntable_read ∨ ev = event_t.invalid_read ∨
        ∃ c1 ∈ c :: cs, ∃ nh,
          ev = event_t.router_route_update c1.cdata.addr nh d.ipver d.if_index ∧
          netaddr_cmp d.saddr c1.cdata.addr ≠ 0 ∧
          ((∃ g, nopt0 = some g ∧ g.addr = nh) ∨
            ∃ n ∈ d.nlist, n.bidir = true ∧ n.addr = nh) := by
      intro nopt1 nrand1 h1 h2
      rcases ih nopt1 nrand1 h1 ev h2 with h | h | h | h | h | ⟨c1, hc1, nh, h⟩
      · left
        exact h
      · right; left
        exact h
      · right; right; left
        exact h
      · right; right; right; left
        exact h
      · right; right; right; right; left
        exact h
      · right; right; right; right; right
        exact ⟨c1, List.mem_cons_of_mem _ hc1, nh, h⟩
    rcases commodity_body_cases d rand c nopt nrand with
      ⟨-, e⟩ | ⟨-, -, e⟩ | ⟨-, -, -, e⟩ | ⟨hne, -, n, hn, e⟩
    · rw [e] at hev
      simp only [Option.isSome_none, Bool.false_eq_true, if_false, DUBP_LOG_DBG,
        List.singleton_append, List.mem_cons] at hev
      rcases hev with h | h
      · left
        exact h
      · exact lift _ _ hok h
    · rw [e] at hev
      simp only [Option.isSome_some, if_true, DUBP_LOG_ERR, List.mem_cons,
        List.mem_singleton, List.not_mem_nil, or_false] at hev
      rcases hev with h | h | h
      · right; right; right; left
        exact h
      · right; left
        exact h
      · right; right; left
        exact h
    · rw [e] at hev
      simp only [Option.isSome_some, if_true, List.mem_cons, List.mem_singleton,
        List.not_mem_nil, or_false] at hev
      rcases hev with h | h
      · right; right; right; left
        exact h
      · right; right; right; right; left
        exact h
    · rw [e] at hev
      simp only [Option.isSome_none, Bool.false_eq_true, if_false, List.cons_append,
        List.nil_append, List.mem_cons] at hev
      have hok1 : nopt_ok d.nlist nopt0 (some n) := by
        have := scan_neighbors_nopt_ok rand c d.nlist nopt0 d.nlist (fun _ h => h)
          { num := 0, diffopt := 0, nopt := nopt, nrand := nrand } hok
        rw [← hn]
        exact this
      rcases hev with h | h | h
      · right; right; right; left
        exact h
      · right; right; right; right; right
        refine ⟨c, List.mem_cons_self _ _, n.addr, h, hne, ?_⟩
        rcases hok1 with h0 | ⟨m, hm, hmem, hb⟩
        · left
          exact ⟨n, h0.symm, rfl⟩
        · cases hm
          exact Or.inr ⟨n, hmem, hb, rfl⟩
      · exact lift _ _ hok1 h

/-- While the commodity loop runs on, its calls are debug logs, entries into
the neighbor loop and `router_route_update` calls. -/
theorem commodity_loop_running (d : dubp_t) (rand : Nat → Nat) (cs : List commodity_t)
    (nopt : Option neighbor_t) (nrand : Nat)
    (h : (commodity_loop d rand cs nopt nrand).ended = none) :
    ∀ ev ∈ (commodity_loop d rand cs nopt nrand).events,
      ev = event_t.logger_log LOG_DEBUG ∨ ev = event_t.ntable_read ∨
        is_route_update ev = true := by
  induction cs generalizing nopt nrand with
  | nil => intro ev hev; simp [commodity_loop] at hev
  | cons c cs ih =>
    rw [commodity_loop] at h ⊢
    rcases commodity_body_cases d rand c nopt nrand with
      ⟨-, e⟩ | ⟨-, -, e⟩ | ⟨-, -, -, e⟩ | ⟨-, -, n, -, e⟩
    · rw [e] at h ⊢
      simp only [Option.isSome_none, Bool.false_eq_true, if_false] at h ⊢
      intro ev hev
      simp only [DUBP_LOG_DBG, List.singleton_append, List.mem_cons] at hev
      rcases hev with h1 | h1
      · left
        exact h1
      · exact ih _ _ h ev h1
    · rw [e] at h; simp at h
    · rw [e] at h; simp at h
    · rw [e] at h ⊢
      simp only [Option.isSome_none, Bool.false_eq_true, if_false] at h ⊢
      intro ev hev
      simp only [List.cons_append, List.nil_append, List.mem_cons] at hev
      rcases hev with h1 | h1 | h1
      · right; left
        exact h1
      · right; right
        exact by rw [h1]; rfl
      · exact ih _ _ h ev h1

theorem route_update_args_append (l1 l2 : List event_t) :
    route_update_args (l1 ++ l2) = route_update_args l1 ++ route_update_args l2 := by
  induction l1 with
  | nil => rfl
  | cons e l1 ih =>
    cases e <;> simp [route_update_args, ih]

/-- A commodity loop that runs to its end calls `router_route_update` once for
each commodity that is not self-destined, in list order, with the
commodity's destination and the configured address family and interface,
and enters the neighbor loop once for each of them. -/
theorem commodity_loop_args (d : dubp_t) (rand : Nat → Nat) (cs : List commodity_t)
    (nopt : Option neighbor_t) (nrand : Nat)
    (h : (commodity_loop d rand cs nopt nrand).ended = none) :
    route_update_args (commodity_loop d rand cs nopt nrand).events =
        (cs.filter (fun c => netaddr_cmp d.saddr c.cdata.addr != 0)).map
          (fun c => (c.cdata.addr, d.ipver, d.if_index)) ∧
      (commodity_loop d rand cs nopt nrand).events.count event_t.ntable_read =
        (cs.filter (fun c => netaddr_cmp d.saddr c.cdata.addr != 0)).length := by
  induction cs generalizing nopt nrand with
  | nil => exact ⟨rfl, rfl⟩
  | cons c cs ih =>
    rw [commodity_loop] at h ⊢
    rcases commodity_body_cases d rand c nopt nrand with
      ⟨h0, e⟩ | ⟨-, -, e⟩ | ⟨-, -, -, e⟩ | ⟨h0, -, n, -, e⟩
    · rw [e] at h ⊢
      simp only [Option.isSome_none, Bool.false_eq_true, if_false] at h ⊢
      obtain ⟨i1, i2⟩ := ih _ _ h
      rw [route_update_args_append, i1, List.count_append, i2]
      simp [DUBP_LOG_DBG, route_update_args, h0]
    · rw [e] at h; simp at h
    · rw [e] at h; simp at h
    · rw [e] at h ⊢
      simp only [Option.isSome_none, Bool.false_eq_true, if_false] at h ⊢
      obtain ⟨i1, i2⟩ := ih _ _ h
      rw [route_update_args_append, i1, List.count_append, i2]
      simp [route_update_args, h0]
      omega

/-- A commodity loop over `cs1 ++ cs2` that runs through `cs1` goes on with
`cs2` from the state `cs1` leaves. -/
theorem commodity_loop_append (d : dubp_t) (rand : Nat → Nat) (cs1 cs2 : List commodity_t)
    (nopt : Option neighbor_t) (nrand : Nat)
    (h : (commodity_loop d rand cs1 nopt nrand).ended = none) :
    commodity_loop d rand (cs1 ++ cs2) nopt nrand =
      { commodity_loop d rand cs2 (commodity_loop d rand cs1 nopt nrand).nopt
          (commodity_loop d rand cs1 nopt nrand).nrand with
        events := (commodity_loop d rand cs1 nopt nrand).events ++
          (commodity_loop d rand cs2 (commodity_loop d rand cs1 nopt nrand).nopt
            (commodity_loop d rand cs1 nopt nrand).nrand).events } := by
  induction cs1 generalizing nopt nrand with
  | nil => simp [commodity_loop]
  | cons c cs1 ih =>
    rw [List.cons_append]
    rw [commodity_loop] at h
    rw [commodity_loop, commodity_loop]
    by_cases hb : (commodity_body d rand c nopt nrand).ended.isSome = true
    · simp only [hb, if_true] at h
      rw [h] at hb
      simp at hb
    · simp only [hb, Bool.false_eq_true, if_false] at h ⊢
      rw [ih _ _ h]
      simp [List.append_assoc]

theorem update_backlogs_map (cs : List commodity_t) (hq : ∀ c ∈ cs, c.queue ≠ none) :
    update_backlogs cs = (true, cs.map refresh_backlog) := by
  induction cs with
  | nil => rfl
  | cons c cs ih =>
    have hc := hq c (List.mem_cons_self _ _)
    have ih1 := ih (fun x hx => hq x (List.mem_cons_of_mem _ hx))
    cases hcq : c.queue with
    | none => exact absurd hcq hc
    | some q => simp [update_backlogs, hcq, ih1, refresh_backlog]

theorem update_backlogs_true (cs : List commodity_t) (h : (update_backlogs cs).1 = true) :
    (update_backlogs cs).2 = cs.map refresh_backlog := by
  induction cs with
  | nil => rfl
  | cons c cs ih =>
    cases hcq : c.queue with
    | none => simp [update_backlogs, hcq] at h
    | some q =>
      simp only [update_backlogs, hcq] at h ⊢
      rw [ih h]
      simp [refresh_backlog, hcq]

theorem refresh_backlog_addr (c : commodity_t) :
    (refresh_backlog c).cdata.addr = c.cdata.addr := by
  unfold refresh_backlog
  split <;> rfl

theorem clist_find_refresh (l : List commodity_t) (c : commodity_t) :
    clist_find l (refresh_backlog c) = clist_find l c := by
  unfold clist_find
  rw [refresh_backlog_addr]

/-- The shape of a tick whose assertions hold: the lock, the calls of the
commodity loop over the refreshed list and, when the loop runs to its end,
the unlock. -/
theorem backlogger_update_shape (d : dubp_t) (rand : Nat → Nat) (nopt0 : Option neighbor_t)
    (h : (update_backlogs d.clist).1 = true) :
    ((commodity_loop d rand (d.clist.map refresh_backlog) nopt0 0).ended = none →
      (backlogger_update d rand nopt0).status = status_t.returned ∧
      (backlogger_update d rand nopt0).events =
        event_t.ntable_mutex_lock ::
          ((commodity_loop d rand (d.clist.map refresh_backlog) nopt0 0).events ++
            [event_t.ntable_mutex_unlock])) ∧
    (∀ st, (commodity_loop d rand (d.clist.map refresh_backlog) nopt0 0).ended = some st →
      (backlogger_update d rand nopt0).status = st ∧
      (backlogger_update d rand nopt0).events =
        event_t.ntable_mutex_lock ::
          (commodity_loop d rand (d.clist.map refresh_backlog) nopt0 0).events) := by
  have h2 := update_backlogs_true d.clist h
  have e : update_backlogs d.clist = (true, d.clist.map refresh_backlog) := by
    rw [← h, ← h2]
  unfold backlogger_update
  rw [e]
  constructor
  · intro hn
    simp [hn]
  · intro st hs
    simp [hs]

/-- A tick that returns has run its commodity loop to the end. -/
theorem backlogger_update_returned (d : dubp_t) (rand : Nat → Nat)
    (nopt0 : Option neighbor_t)
    (h : (backlogger_update d rand nopt0).status = status_t.returned) :
    (commodity_loop d rand (d.clist.map refresh_backlog) nopt0 0).ended = none ∧
      (backlogger_update d rand nopt0).events =
        event_t.ntable_mutex_lock ::
          ((commodity_loop d rand (d.clist.map refresh_backlog) nopt0 0).events ++
            [event_t.ntable_mutex_unlock]) := by
  by_cases hu : (update_backlogs d.clist).1 = true
  · obtain ⟨s1, s2⟩ := backlogger_update_shape d rand nopt0 hu
    rcases commodity_loop_ended d rand (d.clist.map refresh_backlog) nopt0 0 with
      he | he | he
    · exact ⟨he, (s1 he).2⟩
    · rw [(s2 _ he).1] at h; cases h
    · rw [(s2 _ he).1] at h; cases h
  · exfalso
    unfold backlogger_update at h
    generalize update_backlogs d.clist = r at hu h
    obtain ⟨b, cl⟩ := r
    cases b with
    | true => exact hu rfl
    | false => simp at h

/-- The `router_route_update` calls of a tick: never for a self-destined
commodity, always with the configured address family and interface, and with
a next-hop that is read through the entry value of `nopt` or is the address
of a bidirectional neighbor of the table. -/
theorem backlogger_update_events (d : dubp_t) (rand : Nat → Nat)
    (nopt0 : Option neighbor_t) :
    ∀ ev ∈ (backlogger_update d rand nopt0).events,
      ∀ dst nh v i, ev = event_t.router_route_update dst nh v i →
        netaddr_cmp d.saddr dst ≠ 0 ∧ v = d.ipver ∧ i = d.if_index ∧
        ((∃ g, nopt0 = some g ∧ g.addr = nh) ∨
          ∃ n ∈ d.nlist, n.bidir = true ∧ n.addr = nh) := by
  intro ev hev dst nh v i hre
  subst hre
  have key : event_t.router_route_update dst nh v i ∈
      (commodity_loop d rand (d.clist.map refresh_backlog) nopt0 0).events := by
    by_cases hu : (update_backlogs d.clist).1 = true
    · obtain ⟨s1, s2⟩ := backlogger_update_shape d rand nopt0 hu
      cases he : (commodity_loop d rand (d.clist.map refresh_backlog) nopt0 0).ended with
      | none =>
        rw [(s1 he).2] at hev
        simpa using hev
      | some st =>
        rw [(s2 st he).2] at hev
        simpa using hev
    · exfalso
      unfold backlogger_update at hev
      generalize update_backlogs d.clist = r at hu hev
      obtain ⟨b, cl⟩ := r
      cases b with
      | true => exact hu rfl
      | false => simp at hev
  rcases commodity_loop_events d rand _ nopt0 nopt0 0 (Or.inl rfl) _ key with
    h | h | h | h | h | ⟨c, -, nh1, h, h1, h2⟩
  · cases h
  · cases h
  · cases h
  · cases h
  · cases h
  · cases h
    exact ⟨h1, rfl, rfl, h2⟩

theorem netaddr_cmp_eq_zero (a b : netaddr) : netaddr_cmp a b = 0 ↔ a = b := by
  unfold netaddr_cmp
  split_ifs with h1 h2
  · simp [h1]
  · simp [h1]
  · simp [h1]

theorem clist_find_addr (l : List commodity_t) (c ctemp : commodity_t)
    (h : clist_find l c = some ctemp) : ctemp.cdata.addr = c.cdata.addr := by
  have := List.find?_some h
  simp only [beq_iff_eq] at this
  exact (netaddr_cmp_eq_zero _ _).mp this

theorem backlog_compare_ctl (rand : Nat → Nat) (c ctemp : commodity_t) (n : neighbor_t)
    (s : scan_t) : (backlog_compare rand c ctemp n s).1 = ctl_t.next := by
  unfold backlog_compare
  simp only []
  split_ifs <;> rfl

/-- A neighbor that mirrors the commodity and is either not bidirectional or
has the commodity's destination as its address lets the scan go on. -/
theorem neighbor_body_pass (rand : Nat → Nat) (c : commodity_t) (m : neighbor_t) (s : scan_t)
    (h1 : (clist_find m.clist c).isSome = true)
    (h2 : m.bidir = true → m.addr = c.cdata.addr) :
    (neighbor_body rand c m s).1 = ctl_t.next := by
  obtain ⟨ctemp, hct⟩ := Option.isSome_iff_exists.mp h1
  have ha := clist_find_addr _ _ _ hct
  unfold neighbor_body
  rw [hct]
  by_cases hb : m.bidir = true
  · have hz : netaddr_cmp m.addr ctemp.cdata.addr = 0 := by
      rw [netaddr_cmp_eq_zero, ha]; exact h2 hb
    simp only [hb, Bool.not_true, Bool.false_eq_true, if_false, hz, ne_eq, not_true_eq_false]
    exact backlog_compare_ctl rand c ctemp m s
  · simp only [Bool.not_eq_true] at hb
    simp [hb]

theorem scan_neighbors_pass (rand : Nat → Nat) (c : commodity_t) (ns1 rest : List neighbor_t)
    (s : scan_t)
    (h1 : ∀ m ∈ ns1, (clist_find m.clist c).isSome = true ∧
      (m.bidir = true → m.addr = c.cdata.addr)) :
    ∃ s1, scan_neighbors rand c (ns1 ++ rest) s = scan_neighbors rand c rest s1 := by
  induction ns1 generalizing s with
  | nil => exact ⟨s, rfl⟩
  | cons m ns1 ih =>
    have hm := h1 m (List.mem_cons_self _ _)
    have hp := neighbor_body_pass rand c m s hm.1 hm.2
    obtain ⟨s1, e1⟩ := ih (neighbor_body rand c m s).2
      (fun x hx => h1 x (List.mem_cons_of_mem _ hx))
    refine ⟨s1, ?_⟩
    rw [List.cons_append, scan_neighbors]
    generalize neighbor_body rand c m s = r at hp e1
    obtain ⟨k, s2⟩ := r
    simp only at hp
    subst hp
    exact e1

/-- The scan stops at the first bidirectional neighbor whose address differs
from the commodity's destination and takes it as next-hop, whatever the
backlogs and the random draws. -/
theorem scan_neighbors_first_other (rand : Nat → Nat) (c : commodity_t)
    (ns1 : List neighbor_t) (n : neighbor_t) (ns2 : List neighbor_t) (s : scan_t)
    (h1 : ∀ m ∈ ns1, (clist_find m.clist c).isSome = true ∧
      (m.bidir = true → m.addr = c.cdata.addr))
    (hn : (clist_find n.clist c).isSome = true) (hb : n.bidir = true)
    (ha : n.addr ≠ c.cdata.addr) :
    (scan_neighbors rand c (ns1 ++ n :: ns2) s).1 = ctl_t.next ∧
      (scan_neighbors rand c (ns1 ++ n :: ns2) s).2.nopt = some n := by
  obtain ⟨s1, e1⟩ := scan_neighbors_pass rand c ns1 (n :: ns2) s h1
  obtain ⟨ctemp, hct⟩ := Option.isSome_iff_exists.mp hn
  have hne : netaddr_cmp n.addr ctemp.cdata.addr ≠ 0 := by
    rw [ne_eq, netaddr_cmp_eq_zero, clist_find_addr _ _ _ hct]; exact ha
  have e2 : neighbor_body rand c n s1 = (ctl_t.brk, { s1 with nopt := some n }) := by
    unfold neighbor_body
    rw [hct]
    simp [hb, hne]
  rw [e1, scan_neighbors, e2]
  exact ⟨rfl, rfl⟩

/-- The scan ends the process at the first neighbor without a mirrored entry
for the commodity, when it gets that far. -/
theorem scan_neighbors_missing (rand : Nat → Nat) (c : commodity_t)
    (ns1 : List neighbor_t) (n : neighbor_t) (ns2 : List neighbor_t) (s : scan_t)
    (h1 : ∀ m ∈ ns1, (clist_find m.clist c).isSome = true ∧
      (m.bidir = true → m.addr = c.cdata.addr))
    (hn : clist_find n.clist c = none) :
    (scan_neighbors rand c (ns1 ++ n :: ns2) s).1 = ctl_t.exited := by
  obtain ⟨s1, e1⟩ := scan_neighbors_pass rand c ns1 (n :: ns2) s h1
  have e2 : neighbor_body rand c n s1 = (ctl_t.exited, s1) := by
    unfold neighbor_body
    rw [hn]
  rw [e1, scan_neighbors, e2]

/-- When the tie count is `1` the test of line 155 holds for every draw. -/
theorem nexthop_test_one (r : Nat) : nexthop_test r 1 = true := by
  simp only [nexthop_test, Int.sub_self, Int.cast_zero, Int.cast_one, div_one, ge_iff_le,
    decide_eq_true_eq]
  positivity

/-- C3, the code at the failing input: with the bidirectional neighbors
10.0.0.2 and 10.0.0.5 in the table, the commodity for 10.0.0.5 gets the
next-hop 10.0.0.2 in either scan order, for every draw and every entry value
of `nopt`: the test of line 135 leaves the loop at the first bidirectional
neighbor whose address differs from the destination. -/
theorem C3_direct_destination_failing_input (rand : Nat → Nat) (nopt0 : Option neighbor_t) :
    (backlogger_update (dubp_of [neighbor_of (ipv4 10 0 0 2) true 3,
        neighbor_of (ipv4 10 0 0 5) true 999]) rand nopt0).events =
      [event_t.ntable_mutex_lock, event_t.ntable_read,
       event_t.router_route_update (ipv4 10 0 0 5) (ipv4 10 0 0 2) 4 2,
       event_t.ntable_mutex_unlock] ∧
    (backlogger_update (dubp_of [neighbor_of (ipv4 10 0 0 5) true 999,
        neighbor_of (ipv4 10 0 0 2) true 3]) rand nopt0).events =
      [event_t.ntable_mutex_lock, event_t.ntable_read,
       event_t.router_route_update (ipv4 10 0 0 5) (ipv4 10 0 0 2) 4 2,
       event_t.ntable_mutex_unlock] := by
  refine ⟨rfl, ?_⟩
  simp [backlogger_update, update_backlogs, dubp_of, commodity_5, commodity_loop,
    commodity_body, commodity_scan, scan_neighbors, neighbor_body, neighbor_of, clist_find,
    netaddr_cmp, ipv4, backlog_compare, difftemp_of, nexthop_test_one, fifo_length, fifo_ten]

/-- C4, the code at the failing input: local backlog 10, neighbors 10.0.0.3
(backlog 8, differential 2) and 10.0.0.2 (backlog 3, differential 7), scanned
in this order: the next-hop installed is 10.0.0.3 for every draw and every
entry value of `nopt`. In the order of the claim's witness the first
neighbor happens to be the best one. -/
theorem C4_max_differential_failing_input (rand : Nat → Nat) (nopt0 : Option neighbor_t) :
    fifo_length fifo_ten = 10 ∧
    (backlogger_update (dubp_of [neighbor_of (ipv4 10 0 0 3) true 8,
        neighbor_of (ipv4 10 0 0 2) true 3]) rand nopt0).events =
      [event_t.ntable_mutex_lock, event_t.ntable_read,
       event_t.router_route_update (ipv4 10 0 0 5) (ipv4 10 0 0 3) 4 2,
       event_t.ntable_mutex_unlock] ∧
    (backlogger_update (dubp_of [neighbor_of (ipv4 10 0 0 2) true 3,
        neighbor_of (ipv4 10 0 0 3) true 8]) rand nopt0).events =
      [event_t.ntable_mutex_lock, event_t.ntable_read,
       event_t.router_route_update (ipv4 10 0 0 5) (ipv4 10 0 0 2) 4 2,
       event_t.ntable_mutex_unlock] :=
  ⟨rfl, rfl, rfl⟩

/-- C5, the code at the failing input: with an empty neighbor table, and with
a table holding only a non-bidirectional neighbor, the neighbor loop assigns
nothing to `nopt` and line 166 reads through its entry value. When that
value can be read, as some struct `g`, `router_route_update` is called with
the address found there and the tick returns; when it cannot, the process
crashes at the read, under the lock. In neither case is the update skipped
and the tick carried on. -/
theorem C5_no_candidate_failing_input (rand : Nat → Nat) (g : neighbor_t) :
    ((backlogger_update (dubp_of []) rand (some g)).events =
        [event_t.ntable_mutex_lock, event_t.ntable_read,
         event_t.router_route_update (ipv4 10 0 0 5) g.addr 4 2,
         event_t.ntable_mutex_unlock] ∧
      (backlogger_update (dubp_of []) rand none).events =
        [event_t.ntable_mutex_lock, event_t.ntable_read, event_t.invalid_read] ∧
      (backlogger_update (dubp_of []) rand none).status = status_t.crashed) ∧
    ((backlogger_update (dubp_of [neighbor_of (ipv4 10 0 0 2) false 3]) rand (some g)).events =
        [event_t.ntable_mutex_lock, event_t.ntable_read,
         event_t.router_route_update (ipv4 10 0 0 5) g.addr 4 2,
         event_t.ntable_mutex_unlock] ∧
      (backlogger_update (dubp_of [neighbor_of (ipv4 10 0 0 2) false 3]) rand none).events =
        [event_t.ntable_mutex_lock, event_t.ntable_read, event_t.invalid_read] ∧
      (backlogger_update (dubp_of [neighbor_of (ipv4 10 0 0 2) false 3]) rand none).status =
        status_t.crashed) :=
  ⟨⟨rfl, rfl, rfl⟩, rfl, rfl, rfl⟩

/-- C9, the code at the failing input: two bidirectional neighbors tied at
differential 7. For every sequence of draws (and every entry value of
`nopt`) the next-hop is the neighbor scanned first, so each scan order
selects one neighbor with probability 1 and the other with probability 0. -/
theorem C9_tie_break_failing_input (rand : Nat → Nat) (nopt0 : Option neighbor_t) :
    (backlogger_update (dubp_of [neighbor_of (ipv4 10 0 0 2) true 3,
        neighbor_of (ipv4 10 0 0 3) true 3]) rand nopt0).events =
      [event_t.ntable_mutex_lock, event_t.ntable_read,
       event_t.router_route_update (ipv4 10 0 0 5) (ipv4 10 0 0 2) 4 2,
       event_t.ntable_mutex_unlock] ∧
    (backlogger_update (dubp_of [neighbor_of (ipv4 10 0 0 3) true 3,
        neighbor_of (ipv4 10 0 0 2) true 3]) rand nopt0).events =
      [event_t.ntable_mutex_lock, event_t.ntable_read,
       event_t.router_route_update (ipv4 10 0 0 5) (ipv4 10 0 0 3) 4 2,
       event_t.ntable_mutex_unlock] :=
  ⟨rfl, rfl⟩

/-- C7, the code at the failing input: the table holds only the neighbor
10.0.0.2, not bidirectional, and the uninitialised `nopt` holds on entry a
stale pointer to that neighbor (the next-hop of an earlier tick, when the
link was bidirectional). The neighbor loop skips the neighbor, assigns
nothing, and `router_route_update` is called with next-hop 10.0.0.2, for
every draw. -/
theorem C7_stale_nopt_failing_input (rand : Nat → Nat) :
    (neighbor_of (ipv4 10 0 0 2) false 3).bidir = false ∧
    (backlogger_update (dubp_of [neighbor_of (ipv4 10 0 0 2) false 3]) rand
        (some (neighbor_of (ipv4 10 0 0 2) false 3))).events =
      [event_t.ntable_mutex_lock, event_t.ntable_read,
       event_t.router_route_update (ipv4 10 0 0 5) (ipv4 10 0 0 2) 4 2,
       event_t.ntable_mutex_unlock] ∧
    (backlogger_update (dubp_of [neighbor_of (ipv4 10 0 0 2) false 3]) rand
        (some (neighbor_of (ipv4 10 0 0 2) false 3))).status = status_t.returned :=
  ⟨rfl, rfl, rfl⟩

/-- C8: for a commodity whose destination compares equal to the local
address, the body of the commodity loop makes no call but the debug log,
whatever the neighbor table (it does not enter the neighbor loop, draws no
random number, leaves `nopt` alone and cannot end the process), and no
`router_route_update` call of the tick has that commodity's destination. -/
theorem C8_self_destined_skipped (d : dubp_t) (rand : Nat → Nat) (c : commodity_t)
    (h : netaddr_cmp d.saddr c.cdata.addr = 0) :
    (∀ nlist nopt nrand, commodity_body { d with nlist := nlist } rand c nopt nrand =
        { ended := none, nopt := nopt, nrand := nrand, events := DUBP_LOG_DBG }) ∧
      ∀ nopt0, ∀ ev ∈ (backlogger_update d rand nopt0).events,
        ∀ nh v i, ev ≠ event_t.router_route_update c.cdata.addr nh v i := by
  refine ⟨fun nlist nopt nrand => by simp [commodity_body, h], ?_⟩
  intro nopt0 ev hev nh v i he
  exact (backlogger_update_events d rand nopt0 ev hev _ nh v i he).1 h

theorem C8_self_destined_skipped_witness :
    (∀ nlist nopt nrand,
        commodity_body { dubp_self [neighbor_of (ipv4 10 0 0 2) true 3] with nlist := nlist }
          (fun _ => 0) commodity_5 nopt nrand =
        { ended := none, nopt := nopt, nrand := nrand, events := DUBP_LOG_DBG }) ∧
      ∀ nopt0, ∀ ev ∈ (backlogger_update (dubp_self [neighbor_of (ipv4 10 0 0 2) true 3])
          (fun _ => 0) nopt0).events,
        ∀ nh v i, ev ≠ event_t.router_route_update commodity_5.cdata.addr nh v i :=
  C8_self_destined_skipped (dubp_self [neighbor_of (ipv4 10 0 0 2) true 3]) (fun _ => 0)
    commodity_5 (by decide)

theorem refresh_filter_args (d : dubp_t) (cs : List commodity_t) :
    ((cs.map refresh_backlog).filter (fun c => netaddr_cmp d.saddr c.cdata.addr != 0)).map
        (fun c => (c.cdata.addr, d.ipver, d.if_index)) =
      (cs.filter (fun c => netaddr_cmp d.saddr c.cdata.addr != 0)).map
        (fun c => (c.cdata.addr, d.ipver, d.if_index)) := by
  induction cs with
  | nil => rfl
  | cons c cs ih =>
    rw [List.map_cons]
    by_cases h : netaddr_cmp d.saddr c.cdata.addr = 0
    · have h1 : netaddr_cmp d.saddr (refresh_backlog c).cdata.addr = 0 := by
        rw [refresh_backlog_addr]; exact h
      rw [List.filter_cons_of_neg (by simp [h1]), List.filter_cons_of_neg (by simp [h]), ih]
    · have h1 : ¬ netaddr_cmp d.saddr (refresh_backlog c).cdata.addr = 0 := by
        rw [refresh_backlog_addr]; exact h
      rw [List.filter_cons_of_pos (by simp [h1]), List.filter_cons_of_pos (by simp [h]),
        List.map_cons, List.map_cons, ih, refresh_backlog_addr]

/-- C6, as stated, fails: the first neighbor of `dubp_missing` has no
mirrored entry for the first commodity. The tick ends in `exit(1)` right
after the error is logged: the second neighbor, which mirrors the commodity,
is not used, the second commodity is not processed, and the neighbor-table
lock is not released; this is so whether the entry value of `nopt` can be
read or not. -/
theorem C6_missing_entry_counterexample :
    (backlogger_update dubp_missing (fun _ => 0) none).events =
      [event_t.ntable_mutex_lock, event_t.ntable_read, event_t.logger_log LOG_ERR,
       event_t.exit 1] ∧
    (backlogger_update dubp_missing (fun _ => 0) none).status = status_t.exited 1 ∧
    (backlogger_update dubp_missing (fun _ => 0) (some neighbor_3_both)).events =
      [event_t.ntable_mutex_lock, event_t.ntable_read, event_t.logger_log LOG_ERR,
       event_t.exit 1] ∧
    (backlogger_update dubp_missing (fun _ => 0) (some neighbor_3_both)).status =
      status_t.exited 1 := by
  decide

/-- C6, amended: when a tick gets as far as a commodity that is not
self-destined and whose scan of the neighbor table reaches a neighbor
without a mirrored entry for it (`clist_find` returns `NULL`), the process
ends there with exit status 1. The calls of the tick are: the lock; for the
commodities before that one only debug logs, entries into the neighbor loop
and exactly one `router_route_update` for each of them that is not
self-destined, in registry order; then the entry into the neighbor loop,
the log of the error and `exit(1)`. Nothing follows: no call for that
commodity or a later one, and no unlock. -/
theorem C6_missing_entry_fatal (d : dubp_t) (rand : Nat → Nat) (nopt0 : Option neighbor_t)
    (cs1 : List commodity_t) (c : commodity_t) (cs2 : List commodity_t)
    (ns1 : List neighbor_t) (n : neighbor_t) (ns2 : List neighbor_t)
    (hq : ∀ x ∈ d.clist, x.queue ≠ none)
    (hc : d.clist = cs1 ++ c :: cs2)
    (hself : netaddr_cmp d.saddr c.cdata.addr ≠ 0)
    (hn : d.nlist = ns1 ++ n :: ns2)
    (h1 : ∀ m ∈ ns1, (clist_find m.clist c).isSome = true ∧
      (m.bidir = true → m.addr = c.cdata.addr))
    (hmiss : clist_find n.clist c = none)
    (hreach : (commodity_loop d rand (cs1.map refresh_backlog) nopt0 0).ended = none) :
    (backlogger_update d rand nopt0).status = status_t.exited 1 ∧
      ∃ pre, (backlogger_update d rand nopt0).events =
          event_t.ntable_mutex_lock ::
            (pre ++ [event_t.ntable_read, event_t.logger_log LOG_ERR, event_t.exit 1]) ∧
        (∀ ev ∈ pre, ev = event_t.logger_log LOG_DEBUG ∨ ev = event_t.ntable_read ∨
          is_route_update ev = true) ∧
        route_update_args pre =
          (cs1.filter (fun x => netaddr_cmp d.saddr x.cdata.addr != 0)).map
            (fun x => (x.cdata.addr, d.ipver, d.if_index)) := by
  have hu : (update_backlogs d.clist).1 = true := by rw [update_backlogs_map d.clist hq]
  have hbody : ∀ nopt nrand, commodity_loop d rand (refresh_backlog c :: cs2.map refresh_backlog)
      nopt nrand =
      { ended := some (status_t.exited 1),
        nopt := (commodity_scan d rand (refresh_backlog c) nopt nrand).2.nopt,
        nrand := (commodity_scan d rand (refresh_backlog c) nopt nrand).2.nrand,
        events := event_t.ntable_read :: DUBP_LOG_ERR } := by
    intro nopt nrand
    have hscan := scan_neighbors_missing rand (refresh_backlog c) ns1 n ns2
      { num := 0, diffopt := 0, nopt := nopt, nrand := nrand }
      (fun m hm => by
        rw [clist_find_refresh, refresh_backlog_addr]; exact h1 m hm)
      (by rw [clist_find_refresh]; exact hmiss)
    rw [← hn] at hscan
    rw [commodity_loop]
    rcases commodity_body_cases d rand (refresh_backlog c) nopt nrand with
      ⟨e0, -⟩ | ⟨-, -, e⟩ | ⟨-, e0, -⟩ | ⟨-, e0, -⟩
    · rw [refresh_backlog_addr] at e0; exact absurd e0 hself
    · rw [e]; rfl
    · exact absurd hscan e0
    · exact absurd hscan e0
  have hcl : d.clist.map refresh_backlog =
      cs1.map refresh_backlog ++ (refresh_backlog c :: cs2.map refresh_backlog) := by
    rw [hc, List.map_append, List.map_cons]
  have hloop := commodity_loop_append d rand (cs1.map refresh_backlog)
    (refresh_backlog c :: cs2.map refresh_backlog) nopt0 0 hreach
  rw [← hcl, hbody] at hloop
  obtain ⟨-, s2⟩ := backlogger_update_shape d rand nopt0 hu
  have hended : (commodity_loop d rand (d.clist.map refresh_backlog) nopt0 0).ended =
      some (status_t.exited 1) := by rw [hloop]
  obtain ⟨t1, t2⟩ := s2 _ hended
  refine ⟨t1, (commodity_loop d rand (cs1.map refresh_backlog) nopt0 0).events, ?_,
    commodity_loop_running d rand _ nopt0 0 hreach, ?_⟩
  · rw [t2, hloop]; rfl
  · rw [(commodity_loop_args d rand _ nopt0 0 hreach).1, refresh_filter_args]

theorem C6_missing_entry_fatal_witness :
    (commodity_loop dubp_missing_later (fun _ => 1) ([commodity_6].map refresh_backlog)
        none 0).ended = none ∧
      (backlogger_update dubp_missing_later (fun _ => 1) none).status = status_t.exited 1 ∧
      ∃ pre, (backlogger_update dubp_missing_later (fun _ => 1) none).events =
          event_t.ntable_mutex_lock ::
            (pre ++ [event_t.ntable_read, event_t.logger_log LOG_ERR, event_t.exit 1]) ∧
        (∀ ev ∈ pre, ev = event_t.logger_log LOG_DEBUG ∨ ev = event_t.ntable_read ∨
          is_route_update ev = true) ∧
        route_update_args pre =
          ([commodity_6].filter
            (fun x => netaddr_cmp dubp_missing_later.saddr x.cdata.addr != 0)).map
            (fun x => (x.cdata.addr, dubp_missing_later.ipver,
              dubp_missing_later.if_index)) :=
  ⟨by decide, C6_missing_entry_fatal dubp_missing_later (fun _ => 1) none [commodity_6]
    commodity_5 [] [neighbor_4_unidir] neighbor_2_only6 [neighbor_3_both]
    (by decide) rfl (by decide) rfl (by decide) (by decide) (by decide)⟩

/-! ## Further properties of fifo_queue.c -/

/-- C11: for every queue pointer (null included), `fifo_drop_packet` and
`fifo_send_packet` leave the same queue behind and issue a verdict under the
same condition, for the same handle and packet id; the verdicts of
`fifo_drop_packet` are `NF_DROP`, those of `fifo_send_packet` are
`NF_ACCEPT`. -/
theorem C11_drop_as_send (queue : Option fifo_t) :
    (fifo_drop_packet queue).1 = (fifo_send_packet queue).1 ∧
      (fifo_drop_packet queue).2 =
        (fifo_send_packet queue).2.map
          (fun v => { qh := v.qh, id := v.id, verdict := nf_verdict.NF_DROP }) ∧
      (∀ v ∈ (fifo_send_packet queue).2, v.verdict = nf_verdict.NF_ACCEPT) ∧
      (∀ v ∈ (fifo_drop_packet queue).2, v.verdict = nf_verdict.NF_DROP) := by
  cases queue with
  | none => simp [fifo_drop_packet, fifo_send_packet]
  | some q =>
    by_cases h : q.head < q.tail
    · simp [fifo_drop_packet, fifo_send_packet, h]
    · simp [fifo_drop_packet, fifo_send_packet, h]

/-- C12: on a queue with `head ≥ tail`, and on a null queue pointer,
`fifo_send_packet` and `fifo_drop_packet` issue no verdict and leave the
queue as it is. -/
theorem C12_release_empty_noop (q : fifo_t) (h : q.tail ≤ q.head) :
    fifo_send_packet (some q) = (some q, []) ∧ fifo_drop_packet (some q) = (some q, []) ∧
      fifo_send_packet none = (none, []) ∧ fifo_drop_packet none = (none, []) := by
  have hn : ¬ q.head < q.tail := Nat.not_lt.mpr h
  simp [fifo_send_packet, fifo_drop_packet, hn]

theorem C12_release_empty_noop_witness :
    fifo_send_packet (some fifo_raw) = (some fifo_raw, []) ∧
      fifo_drop_packet (some fifo_raw) = (some fifo_raw, []) ∧
      fifo_send_packet none = (none, []) ∧ fifo_drop_packet none = (none, []) :=
  C12_release_empty_noop fifo_raw (by decide)

/-- The verdicts of the loop of `fifo_delete`: `NF_DROP` for the ids
`head + 1, …, tail`, in this order (none when `tail ≤ head`). -/
theorem fifo_delete_loop_verdicts (q : fifo_t) :
    (fifo_delete_loop q).2 =
      (List.range' (q.head + 1) (q.tail - q.head)).map
        (fun i => { qh := q.qh, id := i, verdict := nf_verdict.NF_DROP }) := by
  induction q using fifo_delete_loop.induct with
  | case1 q h q1 ih =>
    rw [fifo_delete_loop]
    have ht := q.tail_lt
    simp only [h, dite_true]
    rw [ih]
    have e1 : q1.head = q.head + 1 := by
      show (q.head + 1) % 4294967296 = q.head + 1
      omega
    have e2 : q1.tail = q.tail := rfl
    have e3 : q1.qh = q.qh := rfl
    have e4 : q.tail - q.head = (q.tail - (q.head + 1)) + 1 := by omega
    rw [e1, e2, e3, e4, List.range'_succ, List.map_cons]
    congr 2
  | case2 q h =>
    rw [fifo_delete_loop]
    simp only [h, dite_false]
    have e : q.tail - q.head = 0 := by omega
    rw [e]
    rfl

/-- C13: on a queue with `head ≤ tail`, `fifo_delete` returns with
`head = tail` (so that `fifo_length` is `0`) and `tail` unchanged, after
`tail − head` verdicts, all `NF_DROP`: one for each id `head + 1, …, tail`,
in increasing order, and none for an id up to the old `head`. -/
theorem C13_delete_drains (q : fifo_t) (h : q.head ≤ q.tail) :
    ∃ q1, fifo_delete (some q) =
        (some q1, (List.range' (q.head + 1) (q.tail - q.head)).map
          (fun i => { qh := q.qh, id := i, verdict := nf_verdict.NF_DROP })) ∧
      q1.head = q.tail ∧ q1.tail = q.tail ∧ fifo_length q1 = 0 ∧
      (fifo_delete (some q)).2.length = q.tail - q.head ∧
      ∀ v ∈ (fifo_delete (some q)).2, q.head < v.id ∧ v.id ≤ q.tail := by
  obtain ⟨f1, -, f3⟩ := fifo_delete_loop_fields q
  have hv := fifo_delete_loop_verdicts q
  have e3 : (fifo_delete_loop q).1.head = q.tail := by rw [f3]; omega
  refine ⟨(fifo_delete_loop q).1, ?_, e3, f1, ?_, ?_, ?_⟩
  · simp only [fifo_delete]
    rw [hv]
  · simp [fifo_length, e3, f1]
  · simp only [fifo_delete]
    rw [hv, List.length_map, List.length_range']
  · intro v hmem
    simp only [fifo_delete] at hmem
    rw [hv] at hmem
    obtain ⟨i, hi, rfl⟩ := List.mem_map.mp hmem
    have := List.mem_range'_1.mp hi
    simp only
    omega

theorem C13_delete_drains_witness :
    ∃ q1, fifo_delete (some fifo_raw_held) =
        (some q1, (List.range' (2 + 1) (5 - 2)).map
          (fun i => { qh := 1, id := i, verdict := nf_verdict.NF_DROP })) ∧
      q1.head = 5 ∧ q1.tail = 5 ∧ fifo_length q1 = 0 ∧
      (fifo_delete (some fifo_raw_held)).2.length = 5 - 2 ∧
      ∀ v ∈ (fifo_delete (some fifo_raw_held)).2, 2 < v.id ∧ v.id ≤ 5 :=
  C13_delete_drains fifo_raw_held (by decide)

/-- One call on a non-null queue appends verdicts whose ids lie above the old
`head`, up to the new `head`, in strictly increasing order. -/
theorem fifo_step_verdicts (q : fifo_t) (vs : List verdict_t) (o : fifo_op) :
    ∃ q1 new, fifo_step (some q, vs) o = (some q1, vs ++ new) ∧
      (∀ v ∈ new, q.head < v.id ∧ v.id ≤ q1.head) ∧ q.head ≤ q1.head ∧
      (new.map verdict_t.id).Pairwise (fun a b => a < b) := by
  have ht := q.tail_lt
  cases o with
  | add =>
    exact ⟨{ q with tail := (q.tail + 1) % 4294967296, tail_lt := Nat.mod_lt _ (by decide) },
      [], by simp [fifo_step, fifo_add_packet], by simp, Nat.le_refl _, by simp⟩
  | send =>
    by_cases h : q.head < q.tail
    · have e : (q.head + 1) % 4294967296 = q.head + 1 := by omega
      refine ⟨{ q with head := (q.head + 1) % 4294967296,
                       head_lt := Nat.mod_lt _ (by decide) },
        [{ qh := q.qh, id := q.head + 1, verdict := nf_verdict.NF_ACCEPT }], ?_, ?_, ?_, ?_⟩
      · simp [fifo_step, fifo_send_packet, h, e]
      · intro v hv
        simp only [List.mem_singleton] at hv
        subst hv
        simp only [e]
        omega
      · simp only [e]; omega
      · simp
    · exact ⟨q, [], by simp [fifo_step, fifo_send_packet, h], by simp, Nat.le_refl _, by simp⟩
  | drop =>
    by_cases h : q.head < q.tail
    · have e : (q.head + 1) % 4294967296 = q.head + 1 := by omega
      refine ⟨{ q with head := (q.head + 1) % 4294967296,
                       head_lt := Nat.mod_lt _ (by decide) },
        [{ qh := q.qh, id := q.head + 1, verdict := nf_verdict.NF_DROP }], ?_, ?_, ?_, ?_⟩
      · simp [fifo_step, fifo_drop_packet, h, e]
      · intro v hv
        simp only [List.mem_singleton] at hv
        subst hv
        simp only [e]
        omega
      · simp only [e]; omega
      · simp
    · exact ⟨q, [], by simp [fifo_step, fifo_drop_packet, h], by simp, Nat.le_refl _, by simp⟩
  | delete =>
    obtain ⟨-, -, f3⟩ := fifo_delete_loop_fields q
    have hv := fifo_delete_loop_verdicts q
    refine ⟨(fifo_delete_loop q).1, (fifo_delete_loop q).2, by simp [fifo_step, fifo_delete],
      ?_, ?_, ?_⟩
    · intro v hmem
      rw [hv] at hmem
      obtain ⟨i, hi, rfl⟩ := List.mem_map.mp hmem
      have := List.mem_range'_1.mp hi
      simp only
      rw [f3]
      omega
    · rw [f3]; omega
    · rw [hv, List.map_map]
      have e : (verdict_t.id ∘
          fun i => ({ qh := q.qh, id := i, verdict := nf_verdict.NF_DROP } : verdict_t)) =
          fun i => i := rfl
      rw [e, List.map_id']
      exact List.pairwise_lt_range' _ _

/-- Along every run the verdict ids are bounded by `head` and strictly
increasing. -/
theorem fifo_run_verdicts (q0 : fifo_t) (ops : List fifo_op) :
    ∃ q, (fifo_run q0 ops).1 = some q ∧ (∀ v ∈ (fifo_run q0 ops).2, v.id ≤ q.head) ∧
      ((fifo_run q0 ops).2.map verdict_t.id).Pairwise (fun a b => a < b) := by
  induction ops using List.reverseRecOn with
  | nil => exact ⟨_, rfl, by simp [fifo_run], by simp [fifo_run]⟩
  | append_singleton ops o ih =>
    obtain ⟨q, hq, h1, h2⟩ := ih
    obtain ⟨q1, new, e1, n1, n2, n3⟩ := fifo_step_verdicts q (fifo_run q0 ops).2 o
    have e2 : fifo_run q0 ops = (some q, (fifo_run q0 ops).2) := by rw [← hq]
    rw [fifo_run_snoc, e2, e1]
    refine ⟨q1, rfl, ?_, ?_⟩
    · intro v hv
      rcases List.mem_append.mp hv with h | h
      · exact Nat.le_trans (h1 v h) n2
      · exact (n1 v h).2
    · rw [List.map_append, List.pairwise_append]
      refine ⟨h2, n3, ?_⟩
      intro a ha b hb
      obtain ⟨va, hva, rfl⟩ := List.mem_map.mp ha
      obtain ⟨vb, hvb, rfl⟩ := List.mem_map.mp hb
      exact Nat.lt_of_le_of_lt (h1 va hva) (n1 vb hvb).1

/-- C14: over every finite sequence of `fifo_add_packet`, `fifo_send_packet`,
`fifo_drop_packet` and `fifo_delete` calls from `fifo_init`, of any length
(so also past a wrap of the 32-bit `tail`), the packet ids of the verdicts
issued are strictly increasing: each is larger than all those before it. -/
theorem C14_verdict_ids_increasing (q0 : fifo_t) (ops : List fifo_op) :
    ((fifo_run q0 ops).2.map verdict_t.id).Pairwise (fun a b => a < b) := by
  obtain ⟨_, _, _, h⟩ := fifo_run_verdicts q0 ops
  exact h

/-! ## Further properties of backlogger_update -/

/-- C15: in a tick that runs to completion, the `router_route_update` calls
are, in commodity-registry order, one for each commodity that is not
self-destined and none for the others, each with that commodity's
destination address, `dubpd.ipver` and `dubpd.if_index`; this holds for
every entry value of `nopt`. -/
theorem C15_route_updates_in_order (d : dubp_t) (rand : Nat → Nat)
    (nopt0 : Option neighbor_t)
    (h : (backlogger_update d rand nopt0).status = status_t.returned) :
    route_update_args (backlogger_update d rand nopt0).events =
      (d.clist.filter (fun c => netaddr_cmp d.saddr c.cdata.addr != 0)).map
        (fun c => (c.cdata.addr, d.ipver, d.if_index)) := by
  obtain ⟨hx, he⟩ := backlogger_update_returned d rand nopt0 h
  rw [he]
  have e1 : route_update_args (event_t.ntable_mutex_lock ::
      ((commodity_loop d rand (d.clist.map refresh_backlog) nopt0 0).events ++
        [event_t.ntable_mutex_unlock])) =
      route_update_args
        (commodity_loop d rand (d.clist.map refresh_backlog) nopt0 0).events := by
    simp [route_update_args, route_update_args_append]
  rw [e1, (commodity_loop_args d rand _ nopt0 0 hx).1, refresh_filter_args]

theorem C15_route_updates_in_order_witness :
    (backlogger_update dubp_two (fun _ => 0) none).status = status_t.returned ∧
      route_update_args (backlogger_update dubp_two (fun _ => 0) none).events =
        (dubp_two.clist.filter (fun c => netaddr_cmp dubp_two.saddr c.cdata.addr != 0)).map
          (fun c => (c.cdata.addr, dubp_two.ipver, dubp_two.if_index)) :=
  ⟨by decide, C15_route_updates_in_order dubp_two (fun _ => 0) none (by decide)⟩

/-- C20: in a tick that runs to completion the first call is the lock of the
neighbor table and the last one its unlock, and each is made exactly once.
The calls in between contain no lock or unlock; they are debug logs, the
entries into the neighbor loop (one for each commodity that is not
self-destined: every read of the neighbor table) and the
`router_route_update` calls. So every read of the neighbor table and every
`router_route_update` call has the lock before it and the unlock after it. -/
theorem C20_lock_once (d : dubp_t) (rand : Nat → Nat) (nopt0 : Option neighbor_t)
    (h : (backlogger_update d rand nopt0).status = status_t.returned) :
    (∃ mid, (backlogger_update d rand nopt0).events =
        event_t.ntable_mutex_lock :: (mid ++ [event_t.ntable_mutex_unlock]) ∧
      (∀ ev ∈ mid, ev = event_t.logger_log LOG_DEBUG ∨ ev = event_t.ntable_read ∨
        is_route_update ev = true) ∧
      mid.count event_t.ntable_read =
        (d.clist.filter (fun c => netaddr_cmp d.saddr c.cdata.addr != 0)).length ∧
      route_update_args mid =
        (d.clist.filter (fun c => netaddr_cmp d.saddr c.cdata.addr != 0)).map
          (fun c => (c.cdata.addr, d.ipver, d.if_index))) ∧
    (backlogger_update d rand nopt0).events.count event_t.ntable_mutex_lock = 1 ∧
    (backlogger_update d rand nopt0).events.count event_t.ntable_mutex_unlock = 1 ∧
    (backlogger_update d rand nopt0).events.count event_t.ntable_read =
      (d.clist.filter (fun c => netaddr_cmp d.saddr c.cdata.addr != 0)).length ∧
    ∀ pre ev post, (backlogger_update d rand nopt0).events = pre ++ ev :: post →
      ev = event_t.ntable_read ∨ is_route_update ev = true →
      event_t.ntable_mutex_lock ∈ pre ∧ event_t.ntable_mutex_unlock ∈ post := by
  obtain ⟨hx, he⟩ := backlogger_update_returned d rand nopt0 h
  have hrun := commodity_loop_running d rand (d.clist.map refresh_backlog) nopt0 0 hx
  obtain ⟨ha1, ha2⟩ := commodity_loop_args d rand (d.clist.map refresh_backlog) nopt0 0 hx
  have hlen : ((d.clist.map refresh_backlog).filter
      (fun c => netaddr_cmp d.saddr c.cdata.addr != 0)).length =
      (d.clist.filter (fun c => netaddr_cmp d.saddr c.cdata.addr != 0)).length := by
    have := congrArg List.length (refresh_filter_args d d.clist)
    simpa using this
  have h1 : event_t.ntable_mutex_lock ∉
      (commodity_loop d rand (d.clist.map refresh_backlog) nopt0 0).events := by
    intro hm
    rcases hrun _ hm with e | e | e
    · cases e
    · cases e
    · simp [is_route_update] at e
  have h2 : event_t.ntable_mutex_unlock ∉
      (commodity_loop d rand (d.clist.map refresh_backlog) nopt0 0).events := by
    intro hm
    rcases hrun _ hm with e | e | e
    · cases e
    · cases e
    · simp [is_route_update] at e
  refine ⟨⟨_, he, hrun, by rw [ha2, hlen], by rw [ha1, refresh_filter_args]⟩, ?_, ?_, ?_, ?_⟩
  · rw [he]
    simp [List.count_cons, List.count_append, List.count_eq_zero_of_not_mem h1]
  · rw [he]
    simp [List.count_cons, List.count_append, List.count_eq_zero_of_not_mem h2]
  · rw [he]
    simp [List.count_cons, List.count_append, ha2, hlen]
  · intro pre ev post hsplit hev
    rw [he] at hsplit
    have hne1 : ev ≠ event_t.ntable_mutex_lock := by
      rintro rfl
      rcases hev with e | e
      · cases e
      · simp [is_route_update] at e
    have hne2 : ev ≠ event_t.ntable_mutex_unlock := by
      rintro rfl
      rcases hev with e | e
      · cases e
      · simp [is_route_update] at e
    constructor
    · cases pre with
      | nil =>
        simp only [List.nil_append, List.cons.injEq] at hsplit
        exact absurd hsplit.1.symm hne1
      | cons p pre1 =>
        simp only [List.cons_append, List.cons.injEq] at hsplit
        rw [← hsplit.1]
        exact List.mem_cons_self _ _
    · have hL : (event_t.ntable_mutex_lock ::
          ((commodity_loop d rand (d.clist.map refresh_backlog) nopt0 0).events ++
            [event_t.ntable_mutex_unlock])).getLast? = some event_t.ntable_mutex_unlock := by
        rw [← List.cons_append, List.getLast?_append]
        rfl
      have hR : (pre ++ ev :: post).getLast? = (ev :: post).getLast? := by
        rw [List.getLast?_append]
        cases hg : (ev :: post).getLast? with
        | none => simp at hg
        | some x => rfl
      rw [hsplit, hR] at hL
      have hmem := List.mem_of_getLast?_eq_some hL
      rcases List.mem_cons.mp hmem with e | e
      · exact absurd e.symm hne2
      · exact e

theorem C20_lock_once_witness :
    (backlogger_update dubp_two (fun _ => 5) none).status = status_t.returned ∧
      (backlogger_update dubp_two (fun _ => 5) none).events.count
        event_t.ntable_mutex_lock = 1 ∧
      (backlogger_update dubp_two (fun _ => 5) none).events.count
        event_t.ntable_mutex_unlock = 1 ∧
      (backlogger_update dubp_two (fun _ => 5) none).events.count event_t.ntable_read =
        (dubp_two.clist.filter
          (fun c => netaddr_cmp dubp_two.saddr c.cdata.addr != 0)).length :=
  ⟨by decide, (C20_lock_once dubp_two (fun _ => 5) none (by decide)).2.1,
    (C20_lock_once dubp_two (fun _ => 5) none (by decide)).2.2.1,
    (C20_lock_once dubp_two (fun _ => 5) none (by decide)).2.2.2.1⟩

/-! ## Properties of the differential comparison -/

/-- C18, the code at the failing input: local backlog 3, reported backlog 8.
The unsigned difference is `2^32 - 5`, not a negative number; on entry to
the neighbor loop (`diffopt = 0`, no next-hop yet, tie count 0) the
comparison makes this neighbor the next-hop with tie count 1, for every
draw. In the whole tick with local backlog 10, the neighbor 10.0.0.5
reporting 999 is installed as next-hop, for every draw and every entry value
of `nopt`. -/
theorem C18_negative_differential_failing_input (rand : Nat → Nat)
    (nopt0 : Option neighbor_t) :
    difftemp_of (commodity_5_with 3) (commodity_5_with 8) = 4294967291 ∧
    backlog_compare rand (commodity_5_with 3) (commodity_5_with 8)
        (neighbor_of (ipv4 10 0 0 5) true 8) scan_entry =
      (ctl_t.next, { num := 1, diffopt := 0,
                     nopt := some (neighbor_of (ipv4 10 0 0 5) true 8), nrand := 1 }) ∧
    (backlogger_update (dubp_of [neighbor_of (ipv4 10 0 0 5) true 999]) rand nopt0).events =
      [event_t.ntable_mutex_lock, event_t.ntable_read,
       event_t.router_route_update (ipv4 10 0 0 5) (ipv4 10 0 0 5) 4 2,
       event_t.ntable_mutex_unlock] := by
  refine ⟨by decide, ?_, ?_⟩
  · simp [backlog_compare, difftemp_of, commodity_5_with, scan_entry, nexthop_test_one]
  · simp [backlogger_update, update_backlogs, dubp_of, commodity_5, commodity_loop,
      commodity_body, commodity_scan, scan_neighbors, neighbor_body, neighbor_of, clist_find, netaddr_cmp, ipv4,
      backlog_compare, difftemp_of, nexthop_test_one, fifo_length, fifo_ten]

/-- C19: when the unsigned differential of line 142 is strictly larger than
`diffopt`, the comparison sets the tie count to 1 and takes the neighbor as
next-hop, and consumes one draw; the result is the same for every value that
`rand()` returns. -/
theorem C19_larger_differential_selected (rand : Nat → Nat) (c ctemp : commodity_t)
    (n : neighbor_t) (s : scan_t) (h : s.diffopt < difftemp_of c ctemp) :
    backlog_compare rand c ctemp n s =
        (ctl_t.next, { s with num := 1, nopt := some n, nrand := s.nrand + 1 }) ∧
      nexthop_test (rand s.nrand) 1 = true := by
  refine ⟨?_, nexthop_test_one _⟩
  have h1 : ¬ difftemp_of c ctemp < s.diffopt := Nat.not_lt.mpr (Nat.le_of_lt h)
  have h2 : ¬ difftemp_of c ctemp = s.diffopt := Nat.ne_of_gt h
  unfold backlog_compare
  simp only [h1, h2, if_false, nexthop_test_one, if_true]

theorem C19_larger_differential_selected_witness :
    scan_entry.diffopt < difftemp_of (commodity_5_with 10) (commodity_5_with 3) ∧
      backlog_compare (fun _ => 0) (commodity_5_with 10) (commodity_5_with 3)
          (neighbor_of (ipv4 10 0 0 2) true 3) scan_entry =
        (ctl_t.next, { scan_entry with num := 1,
                                       nopt := some (neighbor_of (ipv4 10 0 0 2) true 3),
                                       nrand := scan_entry.nrand + 1 }) ∧
      nexthop_test ((fun _ => 0) scan_entry.nrand) 1 = true :=
  ⟨by decide, C19_larger_differential_selected (fun _ => 0) (commodity_5_with 10)
    (commodity_5_with 3) (neighbor_of (ipv4 10 0 0 2) true 3) scan_entry (by decide)⟩

/-! ## Properties of logger.c -/

/-- The buffer handed to syslog holds the first 255 bytes of the header
followed by the body. -/
theorem logger_msgstr_take (header body : List UInt8) :
    (if header.length < 256 then header ++ body.take (256 - header.length - 1)
      else header.take (256 - 1)) = (header ++ body).take 255 := by
  by_cases h : header.length < 256
  · have h1 : List.take 255 header = header := List.take_of_length_le (by omega)
    have h2 : 256 - header.length - 1 = 255 - header.length := by omega
    rw [if_pos h, List.take_append_eq_append_take, h1, h2]
  · have h1 : 255 ≤ header.length := by omega
    rw [if_neg h, List.take_append_of_le_length h1]

theorem logger_log_debug_call :
    logger_log 7 (some (c_bytes "backlogger.c")) 114 (c_bytes "Ignoring commodity") =
      { events := [log_event_t.mutex_lock,
          log_event_t.syslog 7 (c_bytes "DEBUG backlogger.c:114 Ignoring commodity\n"),
          log_event_t.mutex_unlock],
        exited := none } := by
  decide

theorem logger_log_error_call :
    logger_log 3 none 0 (c_bytes "nfq") =
      { events := [log_event_t.mutex_lock, log_event_t.syslog 3 (c_bytes "ERROR nfq\n"),
          log_event_t.exit 1],
        exited := some 1 } := by
  decide

set_option maxRecDepth 10000 in
theorem logger_log_truncated_call :
    logger_log 15 none (-2) (List.replicate 300 120) =
      { events := [log_event_t.mutex_lock,
          log_event_t.syslog 15 (c_bytes "DEBUG " ++ List.replicate 249 120 ++ c_bytes "\n"),
          log_event_t.syslog 4
            (c_bytes "WRNNG (null):-2 Previous log message truncated due to length\n"),
          log_event_t.mutex_unlock],
        exited := none } := by
  decide

/-- C16: `logger_log` ends the process, with status 1, exactly when the
priority level `LOG_PRI(priority)` is `LOG_ERR`, and returns exactly when it
is not. Its calls are, in every case: the lock of the logger mutex; the
syslog call, at the given priority, with the first 255 bytes of the message
(header and body) and a newline; the truncation warning exactly when the
message has more than 255 bytes; and then `exit(1)` for level `LOG_ERR`, the
unlock of the mutex for every other level. Three calls are spelt out: a
debug message from `backlogger.c`, line 114; an error message without file;
and a message of 300 bytes at priority 15 (level `LOG_DEBUG`), which is cut
to 255 bytes and followed by the warning. -/
theorem C16_logger_log_exit (priority : Int) (file : Option (List UInt8)) (line : Int)
    (body : List UInt8) :
    ((logger_log priority file line body).exited = some 1 ↔ LOG_PRI priority = LOG_ERR) ∧
      ((logger_log priority file line body).exited = none ↔ LOG_PRI priority ≠ LOG_ERR) ∧
      (logger_log priority file line body).events =
        log_event_t.mutex_lock ::
          log_event_t.syslog priority
            ((log_header priority file line ++ body).take 255 ++ c_bytes "\n") ::
          ((if (log_header priority file line ++ body).length < 256 then []
            else [log_event_t.syslog LOG_WARNING (log_warning file line)]) ++
            [if LOG_PRI priority = LOG_ERR then log_event_t.exit 1
              else log_event_t.mutex_unlock]) ∧
      logger_log 7 (some (c_bytes "backlogger.c")) 114 (c_bytes "Ignoring commodity") =
        { events := [log_event_t.mutex_lock,
            log_event_t.syslog 7 (c_bytes "DEBUG backlogger.c:114 Ignoring commodity\n"),
            log_event_t.mutex_unlock],
          exited := none } ∧
      logger_log 3 none 0 (c_bytes "nfq") =
        { events := [log_event_t.mutex_lock, log_event_t.syslog 3 (c_bytes "ERROR nfq\n"),
            log_event_t.exit 1],
          exited := some 1 } ∧
      logger_log 15 none (-2) (List.replicate 300 120) =
        { events := [log_event_t.mutex_lock,
            log_event_t.syslog 15
              (c_bytes "DEBUG " ++ List.replicate 249 120 ++ c_bytes "\n"),
            log_event_t.syslog 4
              (c_bytes "WRNNG (null):-2 Previous log message truncated due to length\n"),
            log_event_t.mutex_unlock],
          exited := none } := by
  refine ⟨?_, ?_, ?_, logger_log_debug_call, logger_log_error_call,
    logger_log_truncated_call⟩
  all_goals
    have hm := logger_msgstr_take (log_header priority file line) body
    unfold logger_log
    simp only [LOGGER_MSGSTRLEN]
    rw [hm]
    try simp only [List.length_append]
    by_cases hn : (log_header priority file line).length < 256
    · by_cases hc : (log_header priority file line).length + body.length < 256
      · by_cases hp : LOG_PRI priority = LOG_ERR
        · simp [hn, hc, hp]
        · simp [hn, hc, hp]
      · by_cases hp : LOG_PRI priority = LOG_ERR
        · simp [hn, hc, hp]
        · simp [hn, hc, hp]
    · have hc : ¬ (log_header priority file line).length + body.length < 256 := by omega
      have h0 : ¬ (log_header priority file line).length < 256 := hn
      by_cases hp : LOG_PRI priority = LOG_ERR
      · simp [h0, hc, hp]
      · simp [h0, hc, hp]

/-! ## Properties of avl_comp.c -/

/-- C17: each of `avl_comp_uint32`, `avl_comp_uint16` and `avl_comp_uint8`
returns `1` exactly when `k1 > k2`, `-1` exactly when `k1 < k2` and `0`
exactly when `k1 = k2`, whatever the custom pointer; swapping the keys
negates the result. -/
theorem C17_avl_comp_uint (k1 k2 ptr ptr2 : Nat) :
    ((avl_comp_uint32 k1 k2 ptr = 1 ↔ k1 > k2) ∧ (avl_comp_uint32 k1 k2 ptr = -1 ↔ k1 < k2) ∧
      (avl_comp_uint32 k1 k2 ptr = 0 ↔ k1 = k2) ∧
      avl_comp_uint32 k1 k2 ptr = - avl_comp_uint32 k2 k1 ptr2 ∧
      avl_comp_uint32 k1 k2 ptr = avl_comp_uint32 k1 k2 ptr2) ∧
    ((avl_comp_uint16 k1 k2 ptr = 1 ↔ k1 > k2) ∧ (avl_comp_uint16 k1 k2 ptr = -1 ↔ k1 < k2) ∧
      (avl_comp_uint16 k1 k2 ptr = 0 ↔ k1 = k2) ∧
      avl_comp_uint16 k1 k2 ptr = - avl_comp_uint16 k2 k1 ptr2 ∧
      avl_comp_uint16 k1 k2 ptr = avl_comp_uint16 k1 k2 ptr2) ∧
    ((avl_comp_uint8 k1 k2 ptr = 1 ↔ k1 > k2) ∧ (avl_comp_uint8 k1 k2 ptr = -1 ↔ k1 < k2) ∧
      (avl_comp_uint8 k1 k2 ptr = 0 ↔ k1 = k2) ∧
      avl_comp_uint8 k1 k2 ptr = - avl_comp_uint8 k2 k1 ptr2 ∧
      avl_comp_uint8 k1 k2 ptr = avl_comp_uint8 k1 k2 ptr2) := by
  unfold avl_comp_uint32 avl_comp_uint16 avl_comp_uint8
  rcases Nat.lt_trichotomy k1 k2 with h | h | h
  · have h1 : ¬ k1 > k2 := by omega
    have h3 : k1 ≠ k2 := by omega
    simp [h, h1, h3]
  · subst h
    simp
  · have h1 : ¬ k1 < k2 := by omega
    have h3 : k1 ≠ k2 := by omega
    simp [h, h1, h3]

/-! ## Frame property of fifo_queue.c -/

/-- C21: for every queue, `fifo_add_packet` returns `0`, adds one to `tail`
modulo `2^32` and leaves `head` and the handle as they are;
`fifo_send_packet`, `fifo_drop_packet` and `fifo_delete` leave `tail` and the
handle as they are and do not decrease `head`; on a null pointer none of the
four changes anything. `fifo_length` only reads the queue: it is a function
of the queue to a number, the same for two queues with equal `head` and
`tail`. -/
theorem C21_fifo_frame (q : fifo_t) :
    (∃ q1, fifo_add_packet (some q) = (some q1, 0) ∧ q1.head = q.head ∧
      q1.tail = (q.tail + 1) % 4294967296 ∧ q1.qh = q.qh) ∧
    (∃ q1, (fifo_send_packet (some q)).1 = some q1 ∧ q1.tail = q.tail ∧
      q.head ≤ q1.head ∧ q1.qh = q.qh) ∧
    (∃ q1, (fifo_drop_packet (some q)).1 = some q1 ∧ q1.tail = q.tail ∧
      q.head ≤ q1.head ∧ q1.qh = q.qh) ∧
    (∃ q1, (fifo_delete (some q)).1 = some q1 ∧ q1.tail = q.tail ∧
      q.head ≤ q1.head ∧ q1.qh = q.qh) ∧
    fifo_add_packet none = (none, 0) ∧ (fifo_send_packet none).1 = none ∧
    (fifo_drop_packet none).1 = none ∧ (fifo_delete none).1 = none ∧
    (∀ p : fifo_t, p.head = q.head → p.tail = q.tail → fifo_length p = fifo_length q) := by
  have ht := q.tail_lt
  refine ⟨⟨_, rfl, rfl, rfl, rfl⟩, ?_, ?_, ?_, rfl, rfl, rfl, rfl, ?_⟩
  · by_cases h : q.head < q.tail
    · refine ⟨{ q with head := (q.head + 1) % 4294967296,
                       head_lt := Nat.mod_lt _ (by decide) },
        by simp [fifo_send_packet, h], rfl, ?_, rfl⟩
      show q.head ≤ (q.head + 1) % 4294967296
      omega
    · exact ⟨q, by simp [fifo_send_packet, h], rfl, Nat.le_refl _, rfl⟩
  · by_cases h : q.head < q.tail
    · refine ⟨{ q with head := (q.head + 1) % 4294967296,
                       head_lt := Nat.mod_lt _ (by decide) },
        by simp [fifo_drop_packet, h], rfl, ?_, rfl⟩
      show q.head ≤ (q.head + 1) % 4294967296
      omega
    · exact ⟨q, by simp [fifo_drop_packet, h], rfl, Nat.le_refl _, rfl⟩
  · obtain ⟨f1, f2, f3⟩ := fifo_delete_loop_fields q
    refine ⟨(fifo_delete_loop q).1, by simp [fifo_delete], f1, ?_, f2⟩
    rw [f3]
    omega
  · intro p h1 h2
    simp [fifo_length, h1, h2]

theorem C21_fifo_frame_witness :
    (∃ q1, fifo_add_packet (some fifo_raw_held) = (some q1, 0) ∧ q1.head = 2 ∧
      q1.tail = (5 + 1) % 4294967296 ∧ q1.qh = 1) ∧
    fifo_length { head := 2, tail := 5, qh := 9, head_lt := by decide, tail_lt := by decide } =
      fifo_length fifo_raw_held :=
  ⟨(C21_fifo_frame fifo_raw_held).1,
    (C21_fifo_frame fifo_raw_held).2.2.2.2.2.2.2.2 _ rfl rfl⟩

end Bprd
